import Mathlib

/-!
Verification of the typepad-dl scripts (01_get.py, 02_posts.py,
03_prepare_media.py, 04_create_wordpress_file.py) against their
natural-language specification.  The Python sources are shallowly embedded:
pure helpers become Lean functions on `String`/`List`, the network is a
scripted list of per-attempt responses, and the file system is an explicit
list of paths threaded through the model.
-/

namespace TypepadDL

/-! ## Python string and path primitives

Character-list implementations of the `str` and `os.path` operations the
scripts use, kept kernel-reducible. -/

namespace Py

/-- Model of Python `pat in s` (substring test) on char lists. -/
def listContains : List Char → List Char → Bool
  | s, pat =>
    match s with
    | [] => pat.isEmpty
    | _ :: rest => pat.isPrefixOf s || listContains rest pat

/-- Model of Python `pat in s` for strings. -/
def strContains (s pat : String) : Bool := listContains s.data pat.data

/-- Model of Python `s.startswith(p)`. -/
def strStarts (s p : String) : Bool := p.data.isPrefixOf s.data

/-- Model of Python `s.endswith(p)`. -/
def strEnds (s p : String) : Bool := p.data.isSuffixOf s.data

/-- Model of Python `s.strip()` (ASCII whitespace). -/
def pyStrip (s : String) : String :=
  String.mk (((s.data.dropWhile Char.isWhitespace).reverse.dropWhile Char.isWhitespace).reverse)

/-- ASCII lowering of one character, modelling `str.lower` on the ASCII
range actually exercised by the scripts. -/
def asciiLower (c : Char) : Char :=
  if 'A' ≤ c ∧ c ≤ 'Z' then Char.ofNat (c.toNat + 32) else c

/-- Model of Python `s.lower()`. -/
def strLower (s : String) : String := String.mk (s.data.map asciiLower)

/-- Everything before the first occurrence of the (single-char) separator;
the whole string when the separator is absent.  Models `s.split(c)[0]`. -/
def beforeFirst (s : String) (sep : Char) : String :=
  String.mk (s.data.takeWhile (· ≠ sep))

/-- Model of `os.path.basename` (POSIX): the part after the last slash. -/
def osBasename (p : String) : String :=
  String.mk ((p.data.reverse.takeWhile (· ≠ '/')).reverse)

/-- Model of `os.path.dirname` (POSIX). -/
def osDirname (p : String) : String :=
  let cs := p.data
  let rev := cs.reverse
  let afterSlash := rev.takeWhile (· ≠ '/')
  if afterSlash.length = cs.length then ""
  else
    let headRev := rev.drop afterSlash.length
    if headRev.all (· = '/') then String.mk headRev.reverse
    else String.mk (headRev.dropWhile (· = '/')).reverse

/-- The extension component of `os.path.splitext`: from the last dot of the
basename, unless every character before that dot (within the basename) is a
dot (so `.bashrc` has no extension). -/
def osSplitextExt (p : String) : String :=
  let b := (osBasename p).data
  let rev := b.reverse
  let afterDot := rev.takeWhile (· ≠ '.')
  if afterDot.length = rev.length then ""
  else
    let beforeRev := (rev.drop afterDot.length).drop 1
    if beforeRev.all (· = '.') then ""
    else String.mk ('.' :: afterDot.reverse)

/-- The root component of `os.path.splitext`. -/
def osSplitextRoot (p : String) : String :=
  p.dropRight (osSplitextExt p).length

/-- Model of two-argument `os.path.join` (POSIX, no drive letters). -/
def osJoin (a b : String) : String :=
  if strStarts b "/" then b
  else if a = "" ∨ strEnds a "/" then a ++ b
  else a ++ "/" ++ b

/-- Characters allowed in a URL scheme after the initial letter. -/
def isSchemeChar (c : Char) : Bool := c.isAlphanum || c = '+' || c = '-' || c = '.'

/-- Drop a leading `scheme:` when the prefix before the first colon is a
valid scheme (nonempty, starts with a letter, scheme characters only),
modelling `urllib.parse.urlparse` scheme splitting. -/
def stripScheme (s : String) : String :=
  let pre := s.data.takeWhile (· ≠ ':')
  if pre.length = s.data.length then s
  else if pre ≠ [] ∧ (pre.headD ' ').isAlpha ∧ pre.all isSchemeChar then
    String.mk (s.data.drop (pre.length + 1))
  else s

/-- Drop a leading `//netloc`, modelling `urlparse` authority splitting. -/
def stripNetloc (s : String) : String :=
  if strStarts s "//" then
    String.mk ((s.data.drop 2).dropWhile (fun c => c ≠ '/' ∧ c ≠ '?' ∧ c ≠ '#'))
  else s

/-- Model of `urllib.parse.urlparse(u).path`: strip the fragment, the query,
the scheme and the network location. -/
def urlparsePath (u : String) : String :=
  stripNetloc (stripScheme (beforeFirst (beforeFirst u '#') '?'))

/-- First-match association-list lookup, modelling `dict.get`. -/
def alookup {κ α : Type} [DecidableEq κ] : List (κ × α) → κ → Option α
  | [], _ => none
  | (a, b) :: rest, k => if a = k then some b else alookup rest k

/-- Replace-or-append insertion, modelling `d[k] = v` on an
insertion-ordered Python dict. -/
def mapInsert {κ α : Type} [DecidableEq κ] : List (κ × α) → κ → α → List (κ × α)
  | [], k, v => [(k, v)]
  | (a, b) :: rest, k, v => if a = k then (k, v) :: rest else (a, b) :: mapInsert rest k v

/-- Numeric value of a decimal digit string, modelling `int(s)` on the
digit-only strings matched by the scripts' regexes. -/
def natOfDigits (cs : List Char) : Nat :=
  cs.foldl (fun acc c => acc * 10 + (c.toNat - '0'.toNat)) 0

/-- Model of `str(n).zfill(4)`. -/
def zfill4 (n : Nat) : String :=
  let s := toString n
  if s.length < 4 then String.mk (List.replicate (4 - s.length) '0') ++ s else s

end Py

open Py

/-! ## 02_posts.py — extension inference and `download_file`

The network is a script: one `Attempt` per loop iteration, carrying the
outcome of the HEAD and the GET request (`Tried.exn` models a raised and
caught exception). -/

namespace Posts

/-- Bytes of a response body (`response.content`). -/
abbrev Bytes := List Nat

/-- MAX_RETRIES from 02_posts.py. -/
def MAX_RETRIES : Nat := 3

/-- The fixed Content-Type → extension table of
`get_file_extension_from_content_type` (02_posts.py lines 235-239). -/
def content_type_map : List (String × String) :=
  [("image/jpeg", ".jpg"), ("image/jpg", ".jpg"), ("image/png", ".png"),
   ("image/gif", ".gif"), ("image/webp", ".webp"), ("image/svg+xml", ".svg"),
   ("image/bmp", ".bmp"), ("image/tiff", ".tiff"), ("application/pdf", ".pdf")]

/-- 02_posts.py lines 234-243: normalise the header value and look it up in
the fixed table; an empty header (Python falsy) yields no extension. -/
def get_file_extension_from_content_type (contentType : String) : Option String :=
  if contentType = "" then none
  else alookup content_type_map (strLower (pyStrip (beforeFirst contentType ';')))

/-- byte signature b'\xff\xd8\xff' (JPEG). -/
def sigJpeg : Bytes := [0xff, 0xd8, 0xff]
/-- byte signature b'\x89PNG\r\n\x1a\n'. -/
def sigPng : Bytes := [0x89, 0x50, 0x4e, 0x47, 0x0d, 0x0a, 0x1a, 0x0a]
/-- byte signature b'GIF87a'. -/
def sigGif87 : Bytes := [0x47, 0x49, 0x46, 0x38, 0x37, 0x61]
/-- byte signature b'GIF89a'. -/
def sigGif89 : Bytes := [0x47, 0x49, 0x46, 0x38, 0x39, 0x61]
/-- byte signature b'RIFF'. -/
def sigRiff : Bytes := [0x52, 0x49, 0x46, 0x46]
/-- byte marker b'WEBP'. -/
def sigWebp : Bytes := [0x57, 0x45, 0x42, 0x50]

/-- Sublist search over bytes, modelling Python `pat in content`. -/
def bytesContain : Bytes → Bytes → Bool
  | s, pat =>
    match s with
    | [] => pat.isEmpty
    | _ :: rest => pat.isPrefixOf s || bytesContain rest pat

/-- 02_posts.py lines 245-251: sniff the body's first bytes.  Only the
JPEG, PNG, GIF and WEBP signatures are checked. -/
def detect_file_extension_from_content (content : Bytes) : Option String :=
  if content.length < 8 then none
  else if sigJpeg.isPrefixOf content then some ".jpg"
  else if sigPng.isPrefixOf content then some ".png"
  else if sigGif87.isPrefixOf content ∨ sigGif89.isPrefixOf content then some ".gif"
  else if sigRiff.isPrefixOf content ∧ bytesContain (content.take 12) sigWebp then some ".webp"
  else none

/-- A scripted HTTP response (`curl_cffi` response object). -/
structure HttpResp where
  status : Nat
  contentType : String
  content : Bytes
  text : String
deriving Repr, DecidableEq

/-- Outcome of one request: a response, or a raised (and caught) exception. -/
inductive Tried (α : Type) where
  | ok (a : α)
  | exn
deriving Repr, DecidableEq

/-- The scripted outcomes of one iteration of the retry loop of
`download_file`: the HEAD request and the GET request. -/
structure Attempt where
  headR : Tried HttpResp
  getR : Tried HttpResp
deriving Repr, DecidableEq

/-- Result of the inner HEAD block of `download_file` (lines 256-265):
`none` models the immediate `return False` on a HEAD 404, `some ext` models
falling through to the GET with the header-derived extension `ext`. -/
def dlHeadExt : Tried HttpResp → Option (Option String)
  | .ok r =>
      if r.status = 200 then some (get_file_extension_from_content_type r.contentType)
      else if r.status = 404 then none
      else some none
  | .exn => some none

/-- Observable result of a `download_file` call: the returned boolean, the
files written (path and bytes), the extension variable at the point of a
successful write, the number of loop iterations entered and the number of
`time.sleep(RETRY_DELAY)` calls executed. -/
structure DlResult where
  success : Bool
  written : List (String × Bytes)
  usedExt : Option String
  attempts : Nat
  sleeps : Nat
deriving Repr, DecidableEq

/-- Lines 269-270 of `download_file`: the `extension` variable after a
successful GET — the header-derived extension, else the body sniff. -/
def dlExt (headExt : Option String) (body : Bytes) : Option String :=
  match headExt with
  | some e => some e
  | none => detect_file_extension_from_content body

/-- Lines 271-273 of `download_file`: the `final_save_path` variable —
append the inferred extension when the requested path has none. -/
def dlFinalPath (savePath : String) : Option String → String
  | some e => if osSplitextExt savePath = "" then savePath ++ e else savePath
  | none => savePath

/-- 02_posts.py lines 253-294, `download_file(session, url, save_path,
fail_fast_on_500)`.  The retry loop is driven by the attempt script (one
entry per iteration; a full run has `MAX_RETRIES` entries).  A sleep
happens exactly when the loop continues and the attempt was not the last
one (`attempt < MAX_RETRIES - 1`, i.e. the remaining script is nonempty). -/
def download_file : List Attempt → String → Bool → DlResult
  | [], _, _ => ⟨false, [], none, 0, 0⟩
  | a :: rest, savePath, failFastOn500 =>
    let retry : DlResult :=
      let r := download_file rest savePath failFastOn500
      ⟨r.success, r.written, r.usedExt, r.attempts + 1,
        (if rest.isEmpty then 0 else 1) + r.sleeps⟩
    match dlHeadExt a.headR with
    | none => ⟨false, [], none, 1, 0⟩
    | some headExt =>
      match a.getR with
      | .ok g =>
        if g.status = 200 then
          let ext := dlExt headExt g.content
          ⟨true, [(dlFinalPath savePath ext, g.content)], ext, 1, 0⟩
        else if 500 ≤ g.status ∧ g.status < 600 ∧ failFastOn500 then ⟨false, [], none, 1, 0⟩
        else if g.status = 404 then ⟨false, [], none, 1, 0⟩
        else retry
      | .exn => retry

/-! ### `process_url` and the media loop

`process_url` (02_posts.py lines 296-387) is embedded with its control-flow
skeleton intact.  BeautifulSoup parsing of the saved HTML is abstracted: the
media tags the loop iterates over are given directly (paired with a
per-tag environment scripting the network and a flag modelling an
exception, e.g. from `os.makedirs`, escaping during that iteration). -/

/-- Scan `path.data` for the first `/YYYY/MM/` match, modelling
`re.search(r'/(\d{4})/(\d{2})/', path)`. -/
def findDateMatch : List Char → Option (String × String)
  | [] => none
  | c :: rest =>
      match c :: rest with
      | '/' :: a :: b :: c2 :: d :: '/' :: e :: f :: '/' :: _ =>
          if [a, b, c2, d].all Char.isDigit ∧ [e, f].all Char.isDigit then
            some (String.mk [a, b, c2, d], String.mk [e, f])
          else findDateMatch rest
      | _ => findDateMatch rest

/-- 02_posts.py lines 213-232, `generate_filename_from_url` (the
`blog_base_url` parameter is unused in the source and omitted). -/
def generate_filename_from_url (url : String) (postIndex : Nat) : String :=
  let path := urlparsePath url
  let slug := osSplitextRoot (osBasename path)
  let orderPart := zfill4 postIndex
  match findDateMatch path.data with
  | some (y, m) => y ++ "_" ++ m ++ "_" ++ orderPart ++ "_" ++ slug
  | none => orderPart ++ "_" ++ slug

/-- Model of `urllib.parse.urljoin` for the URL shapes the scripts build:
absolute links kept, scheme-relative and host-relative links resolved
against the base, other links resolved against the base's directory
(dot segments left as written). -/
def urljoin (base url : String) : String :=
  let basePath := urlparsePath base
  let origin := base.dropRight basePath.length
  if url = "" then base
  else if stripScheme url ≠ url then url
  else if strStarts url "//" then String.mk (base.data.takeWhile (· ≠ ':')) ++ ":" ++ url
  else if strStarts url "/" then origin ++ url
  else origin ++ osDirname basePath ++ "/" ++ url

/-- Model of `re.sub(r'-\d+wi$', '', link)` (02_posts.py line 367). -/
def stripWiSuffix (s : String) : String :=
  match s.data.reverse with
  | 'i' :: 'w' :: rest =>
      let digits := rest.takeWhile Char.isDigit
      if digits ≠ [] ∧ (rest.drop digits.length).headD ' ' = '-' then
        String.mk ((rest.drop (digits.length + 1)).reverse)
      else s
  | _ => s

/-- One `<img>` or `<a>` tag of the post content (02_posts.py line 344). -/
structure MediaTag where
  tagName : String
  src : Option String
  href : Option String
deriving Repr, DecidableEq

/-- Per-tag script: whether an exception escapes while handling this tag,
and the attempt scripts for the (up to two) `download_file` calls. -/
structure TagEnv where
  raiseExn : Bool
  firstTry : List Attempt
  secondTry : List Attempt
deriving Repr, DecidableEq

/-- Observable events of `process_url`. -/
inductive PUEvent where
  | wroteHtml (path : String)
  | wroteMedia (path : String)
  | loggedUrl (u : String)
deriving Repr, DecidableEq

/-- Outcome of one iteration of the media loop. -/
structure TagOutcome where
  fs : List String
  events : List PUEvent
  calls : List (String × Bool)
  succeeded : Bool
  skipped : Bool
deriving Repr, DecidableEq

/-- 02_posts.py lines 349-384: one iteration of the media loop.  `fs` is
the set of files on disk (`os.path.exists`); `calls` records each
`download_file` invocation as (url, fail_fast_on_500). -/
def mediaTagStep (postUrl mediaDirPath : String) (i : Nat) (tag : MediaTag)
    (env : TagEnv) (fs : List String) : Except Unit TagOutcome :=
  if env.raiseExn then .error () else
  let isImage := tag.tagName = "img"
  let link := if isImage then tag.src.getD "" else tag.href.getD ""
  if link = "" ∨ (¬ isImage ∧ ¬ strContains link ".typepad.com/.a/") then
    .ok ⟨fs, [], [], false, true⟩
  else
    let originalFullUrl := urljoin postUrl link
    let mediaFilename0 := osBasename (urlparsePath originalFullUrl)
    let mediaFilename := if mediaFilename0 = "" then "media_" ++ toString i else mediaFilename0
    let mediaSavePath := osJoin mediaDirPath mediaFilename
    if mediaSavePath ∈ fs then .ok ⟨fs, [], [], false, true⟩
    else
      let cleanedFullUrl := urljoin postUrl (stripWiSuffix link)
      let useClean := isImage ∧ strContains link ".typepad.com/" ∧ cleanedFullUrl ≠ originalFullUrl
      if useClean then
        let r1 := download_file env.firstTry mediaSavePath true
        if r1.success then
          .ok ⟨fs ++ r1.written.map (·.1), r1.written.map (fun w => .wroteMedia w.1),
               [(cleanedFullUrl, true)], true, false⟩
        else
          let r2 := download_file env.secondTry mediaSavePath false
          .ok ⟨fs ++ r2.written.map (·.1), r2.written.map (fun w => .wroteMedia w.1),
               [(cleanedFullUrl, true), (originalFullUrl, false)], r2.success, false⟩
      else
        let r2 := download_file env.secondTry mediaSavePath false
        .ok ⟨fs ++ r2.written.map (·.1), r2.written.map (fun w => .wroteMedia w.1),
             [(originalFullUrl, false)], r2.success, false⟩

/-- Download statistics returned by `process_url`. -/
structure Stats where
  postsProcessed : Nat
  mediaDownloaded : Nat
  mediaFailed : Nat
deriving Repr, DecidableEq

/-- 02_posts.py lines 349-384: the media loop over the enumerated tags.
The bool result records whether an exception escaped the loop. -/
def processMediaLoop (postUrl mediaDirPath : String) :
    Nat → List (MediaTag × TagEnv) → List String → Stats →
    List String × List PUEvent × Stats × Bool
  | _, [], fs, st => (fs, [], st, false)
  | i, (tag, env) :: rest, fs, st =>
    match mediaTagStep postUrl mediaDirPath i tag env fs with
    | .error _ => (fs, [], st, true)
    | .ok o =>
        let st' :=
          if o.skipped then st
          else if o.succeeded then { st with mediaDownloaded := st.mediaDownloaded + 1 }
          else { st with mediaFailed := st.mediaFailed + 1 }
        let r := processMediaLoop postUrl mediaDirPath (i + 1) rest o.fs st'
        (r.1, o.events ++ r.2.1, r.2.2.1, r.2.2.2)

/-- Resolution of the HTML fetch retry loop (02_posts.py lines 303-324). -/
inductive HtmlFetch where
  | ok (html : String)
  | notFound
  | exhausted
deriving Repr, DecidableEq

/-- 02_posts.py lines 304-320: fetch the post HTML with retries; a 404
returns immediately, other failures retry until the script runs out. -/
def fetchHtmlLoop : List (Tried HttpResp) → HtmlFetch
  | [] => .exhausted
  | t :: rest =>
    match t with
    | .ok r =>
        if r.status = 200 then .ok r.text
        else if r.status = 404 then .notFound
        else fetchHtmlLoop rest
    | .exn => fetchHtmlLoop rest

/-- Observable result of `process_url`: the event trace, whether the call
returned normally (false = an exception escaped to `future.result()`),
and the stats. -/
structure PUResult where
  events : List PUEvent
  okRun : Bool
  stats : Stats
deriving Repr, DecidableEq

/-- 02_posts.py lines 296-387, `process_url`.  `htmlScript` drives the HTML
retry loop, `assetsAttempt` is the (exception-caught) outcome of
`download_page_assets`, and `contentTags` is the parsed content div:
`none` models no `entry-content`/`article`/`body` found. -/
def process_url (postIndex : Nat) (url : String)
    (htmlScript : List (Tried HttpResp)) (assetsAttempt : Tried String)
    (contentTags : Option (List (MediaTag × TagEnv))) (fs : List String) : PUResult :=
  let baseFilename := generate_filename_from_url url postIndex
  let htmlSavePath := osJoin "posts" (osSplitextRoot baseFilename ++ ".html")
  match fetchHtmlLoop htmlScript with
  | .notFound => ⟨[], true, ⟨0, 0, 0⟩⟩
  | .exhausted => ⟨[], true, ⟨0, 0, 0⟩⟩
  | .ok _html =>
    let ev1 := [PUEvent.wroteHtml htmlSavePath] ++
      (match assetsAttempt with
       | .ok _ => [PUEvent.wroteHtml htmlSavePath]
       | .exn => [])
    match contentTags with
    | none => ⟨ev1 ++ [.loggedUrl url], true, ⟨1, 0, 0⟩⟩
    | some tags =>
        let mediaDirPath := osJoin "posts" (osSplitextRoot baseFilename)
        let (_, evM, st, raised) := processMediaLoop url mediaDirPath 0 tags fs ⟨1, 0, 0⟩
        if raised then ⟨ev1 ++ evM, false, st⟩
        else ⟨ev1 ++ evM ++ [.loggedUrl url], true, st⟩

/-- 02_posts.py lines 410-427 of `main`: deduplicate the permalink list
preserving order. -/
def dedupPreserving : List String → List String → List String
  | [], _ => []
  | u :: rest, seen =>
      if u ∈ seen then dedupPreserving rest seen
      else u :: dedupPreserving rest (u :: seen)

/-- Enumerate the unique URLs with their index, keeping those not yet in
the downloaded log (the dict comprehension of line 425). -/
def urlsToProcessGo : Nat → List String → List String → List (String × Nat)
  | _, [], _ => []
  | i, u :: rest, downloaded =>
      if downloaded.contains u then urlsToProcessGo (i + 1) rest downloaded
      else (u, i) :: urlsToProcessGo (i + 1) rest downloaded

/-- 02_posts.py lines 422-427 of `main`: the URLs submitted to the worker
pool on a run, paired with their index in the unique ordered list; URLs
already present in downloaded_permalinks.txt are filtered out. -/
def urls_to_process (permalinks downloaded : List String) : List (String × Nat) :=
  urlsToProcessGo 0 (dedupPreserving permalinks []) downloaded

/-- The post URLs recorded in downloaded_permalinks.txt by a trace of
events. -/
def loggedUrls (events : List PUEvent) : List String :=
  events.filterMap (fun e => match e with | .loggedUrl u => some u | _ => none)

end Posts

/-! ## 03_prepare_media.py — deduplication pass

`imagehash.phash` is modelled as a function from file content to a bit
sequence (`PHash`); the imagehash subtraction `h1 - h2` is the Hamming
distance.  `magic.Magic.from_file` is a function from content to a MIME
string.  Pillow/imagehash failures on a corrupt file are an `Except.error`
of `phashOf`, caught by the per-file `try` of `main`. -/

namespace PrepareMedia

open Posts (Tried)

/-- A perceptual hash: the bit sequence of `imagehash.phash`. -/
abbrev PHash := List Bool

/-- Hamming distance between two hashes, modelling imagehash subtraction
(hashes produced by the same `phash` call have equal length; the length
terms make the definition total). -/
def hamming (a b : PHash) : Nat :=
  (a.zip b).countP (fun p => p.1 != p.2) + (a.length - b.length) + (b.length - a.length)

/-- HASH_DIFFERENCE_THRESHOLD from 03_prepare_media.py. -/
def HASH_DIFFERENCE_THRESHOLD : Nat := 2

/-- A media file found by the scan: its path under `posts/` and its bytes. -/
structure MediaFile where
  path : String
  content : String
deriving Repr, DecidableEq

/-- The modelled environment: libmagic, Pillow+imagehash, and the uuid4
supply (indexed by the number of uuids drawn so far). -/
structure PrepEnv where
  mimeOf : String → String
  phashOf : String → Except String PHash
  freshIds : Nat → String

/-- 03_prepare_media.py lines 28-41, `sanitize_filename`. -/
def sanitize_filename (postSlug originalFilename : String) : String :=
  let combined := osSplitextRoot postSlug ++ "_" ++ originalFilename
  String.mk (combined.data.map
    (fun c => if c.isAlphanum ∨ c = '.' ∨ c = '_' ∨ c = '-' then c else '_'))

/-- The mutable state of `main`'s processing loop: `processed_hashes`
(insertion-ordered dict hash → canonical filename), `file_map`, the
filenames existing in the media output directory, the copy events, the
per-file warnings, and the number of uuids drawn. -/
structure PrepState where
  processedHashes : List (PHash × String)
  fileMap : List (String × String)
  fsNames : List String
  copies : List (String × String)
  warnings : List String
  uuidCount : Nat
deriving Repr, DecidableEq

/-- The initial state of the processing loop. -/
def initState : PrepState := ⟨[], [], [], [], [], 0⟩

/-- 03_prepare_media.py lines 87-94: fold over `processed_hashes` tracking
the lowest difference (`none` = `float('inf')`) and the best-matching
hash. -/
def bestLoop (h : PHash) : List (PHash × String) → Option Nat × Option PHash →
    Option Nat × Option PHash
  | [], acc => acc
  | (e, _) :: rest, (lo, best) =>
      match lo with
      | none => bestLoop h rest (some (hamming h e), some e)
      | some l =>
          if hamming h e < l then bestLoop h rest (some (hamming h e), some e)
          else bestLoop h rest (some l, best)

/-- 03_prepare_media.py lines 102-112: the sanitized destination filename,
uniquified with a uuid4 suffix when already taken, together with the
number of uuids drawn afterwards. -/
def prepNewName (env : PrepEnv) (s : PrepState) (f : MediaFile) : String × Nat :=
  let postSlug := osBasename (osDirname f.path)
  let newFilename0 := sanitize_filename postSlug (osBasename f.path)
  if newFilename0 ∈ s.fsNames then
    (osSplitextRoot newFilename0 ++ "_" ++ env.freshIds s.uuidCount ++
       osSplitextExt newFilename0, s.uuidCount + 1)
  else (newFilename0, s.uuidCount)

/-- 03_prepare_media.py lines 101-119: the copy branch (reached by
non-images and by images whose lowest difference is not below the
threshold).  `hashOpt` is `some h` exactly when the file is an image whose
hash was computed in this iteration (the `'current_hash' in locals()`
guard). -/
def prepCopy (env : PrepEnv) (s : PrepState) (f : MediaFile)
    (hashOpt : Option PHash) : PrepState :=
  let (newFilename, uuids) := prepNewName env s f
  { s with
    fsNames := s.fsNames ++ [newFilename],
    fileMap := mapInsert s.fileMap f.path newFilename,
    copies := s.copies ++ [(f.path, newFilename)],
    processedHashes :=
      match hashOpt with
      | some h => s.processedHashes ++ [(h, newFilename)]
      | none => s.processedHashes,
    uuidCount := uuids }

/-- 03_prepare_media.py lines 76-123: processing of one file.  A failure of
`phashOf` (corrupt file) is caught by the per-file handler, which logs a
warning and moves on; likewise a (provably unreachable) missing
`processed_hashes` key would raise and be caught. -/
def prepStep (env : PrepEnv) (s : PrepState) (f : MediaFile) : PrepState :=
  let isImage := strStarts (env.mimeOf f.content) "image/"
  if isImage then
    match env.phashOf f.content with
    | .error _ => { s with warnings := s.warnings ++ [f.path] }
    | .ok h =>
        let (lo, best) := bestLoop h s.processedHashes (none, none)
        let isDup := match lo with
          | some d => decide (d < HASH_DIFFERENCE_THRESHOLD)
          | none => false
        if isDup then
          match best.bind (fun bh => alookup s.processedHashes bh) with
          | some newFilename =>
              { s with fileMap := mapInsert s.fileMap f.path newFilename }
          | none => { s with warnings := s.warnings ++ [f.path] }
        else prepCopy env s f (some h)
  else prepCopy env s f none

/-- The processing loop of `main` over the scanned files. -/
def prepRun (env : PrepEnv) : List MediaFile → PrepState → PrepState
  | [], s => s
  | f :: rest, s => prepRun env rest (prepStep env s f)

end PrepareMedia

/-! ## A BeautifulSoup document tree

Shared by the embeddings of 01_get.py and 04_create_wordpress_file.py. -/

/-- A parsed HTML node: an element with attributes and children, or a
text string. -/
inductive Node where
  | elem (name : String) (attrs : List (String × String)) (children : List Node)
  | text (s : String)
deriving Repr

namespace Node

mutual

/-- Model of `tag.get_text()`: the concatenation of all descendant
strings in document order. -/
def nodeText : Node → String
  | .text s => s
  | .elem _ _ cs => nodesText cs

/-- `get_text()` over a child list. -/
def nodesText : List Node → String
  | [] => ""
  | n :: rest => nodeText n ++ nodesText rest

end

mutual

/-- Model of `tag.get_text(strip=True)`: each string stripped, joined. -/
def nodeTextStrip : Node → String
  | .text s => pyStrip s
  | .elem _ _ cs => nodesTextStrip cs

/-- `get_text(strip=True)` over a child list. -/
def nodesTextStrip : List Node → String
  | [] => ""
  | n :: rest => nodeTextStrip n ++ nodesTextStrip rest

end

mutual

/-- Whether a node has an `img` descendant (or is one), for
`tag.find('img')` on each child. -/
def nodeHasImg : Node → Bool
  | .text _ => false
  | .elem nm _ cs => nm == "img" || nodesHaveImg cs

/-- Model of `a_tag.find('img')`: some descendant of the child list is an
`img` element. -/
def nodesHaveImg : List Node → Bool
  | [] => false
  | n :: rest => nodeHasImg n || nodesHaveImg rest

end

/-- The whitespace-split class list of an attribute value, modelling how
BeautifulSoup parses the multi-valued `class` attribute. -/
def splitClasses (v : String) : List String :=
  ((v.data.splitOnP Char.isWhitespace).map String.mk).filter (· ≠ "")

/-- Model of `' '.join(classes)`. -/
def joinSpace : List String → String
  | [] => ""
  | [c] => c
  | c :: rest => c ++ " " ++ joinSpace rest

/-- Whether an attribute list carries the given CSS class. -/
def hasClass (attrs : List (String × String)) (c : String) : Bool :=
  match alookup attrs "class" with
  | none => false
  | some v => (splitClasses v).contains c

end Node

/-! ## 01_get.py — next-page validation and the crawl loop -/

namespace GetPages

open Posts (Tried HttpResp)
open Node

mutual

/-- Model of `soup.select_one('div.pager-inner span.pager-right a')` on
one node: depth-first (document-order) search for the first `a` element
that has a `span.pager-right` ancestor which itself has a
`div.pager-inner` ancestor.  The two flags carry the ancestor context. -/
def findNextANode : Node → Bool → Bool → Option Node
  | Node.text _, _, _ => none
  | Node.elem nm attrs children, inInner, inRight =>
    if nm == "a" && inRight then some (Node.elem nm attrs children)
    else
      findNextA children
        (inInner || (nm == "div" && hasClass attrs "pager-inner"))
        (inRight || (inInner && nm == "span" && hasClass attrs "pager-right"))

/-- The `select_one` search over a child list, in document order. -/
def findNextA : List Node → Bool → Bool → Option Node
  | [], _, _ => none
  | n :: rest, inInner, inRight =>
    match findNextANode n inInner inRight with
    | some x => some x
    | none => findNextA rest inInner inRight

end

/-- The `select_one` call of `check_for_next_page` on a whole document. -/
def selectNextLink (doc : Node) : Option Node :=
  findNextA [doc] false false

/-- Model of `re.search(r'/page/(\d+)/?$', href)` followed by
`int(match.group(1))`: an optional final slash is dropped, then the href
must end in `/page/` followed by a nonempty digit run. -/
def parsePageNum (href : String) : Option Nat :=
  let cs := href.data
  let cs1 := if cs.getLast? = some '/' then cs.dropLast else cs
  let rev := cs1.reverse
  let digits := rev.takeWhile Char.isDigit
  if digits.isEmpty then none
  else if "/page/".data.reverse.isPrefixOf (rev.drop digits.length) then
    some (natOfDigits digits.reverse)
  else none

/-- 01_get.py lines 127-179, `check_for_next_page` (on the parsed
document). -/
def check_for_next_page (doc : Node) (currentPageNum : Nat) : Bool :=
  match selectNextLink doc with
  | none => false
  | some nextLink =>
    let linkText := strLower (nodeTextStrip nextLink)
    if ¬ (strContains linkText "next" ∨ strContains linkText "»") then false
    else
      match nextLink with
      | Node.text _ => false
      | Node.elem _ attrs _ =>
        match alookup attrs "href" with
        | none => false
        | some href =>
          if href = "" then false
          else
            match parsePageNum href with
            | none => false
            | some n => n = currentPageNum + 1

/-- Resolution of one listing page's fetch (01_get.py lines 248-286):
a parsed document, the end-of-crawl marker ("STOP", from a 404), or a
skip ("SKIP" or retry exhaustion). -/
inductive PageOutcome where
  | content (doc : Node)
  | stopCrawl
  | skipPage
deriving Repr

/-- 01_get.py lines 253-286: the inner retry loop of `main`.  Only 5xx
statuses and exceptions consume retries; 200, 404 and other statuses
resolve immediately; an exhausted script is `response_content is None`,
which is skipped. -/
def fetchPageLoop : List (Tried (Nat × Node)) → PageOutcome
  | [] => .skipPage
  | .exn :: rest => fetchPageLoop rest
  | .ok (st, doc) :: rest =>
      if st = 200 then .content doc
      else if st = 404 then .stopCrawl
      else if 500 ≤ st ∧ st < 600 then fetchPageLoop rest
      else .skipPage

/-- 01_get.py lines 240-320: the page scan loop of `main`, returning the
pages scanned (marked in scanned.txt) in order.  `fetch` resolves each
page number through the retry loop; `fuel` bounds the iteration count of
the `while True`. -/
def crawlLoop (fetch : Nat → PageOutcome) (scanned : List Nat) : Nat → Nat → List Nat
  | _, 0 => []
  | pageNum, fuel + 1 =>
    if pageNum ∈ scanned then crawlLoop fetch scanned (pageNum + 1) fuel
    else
      match fetch pageNum with
      | .stopCrawl => []
      | .skipPage => crawlLoop fetch scanned (pageNum + 1) fuel
      | .content doc =>
          pageNum ::
            (if check_for_next_page doc pageNum then crawlLoop fetch scanned (pageNum + 1) fuel
             else [])

end GetPages

/-! ## 04_create_wordpress_file.py — the content rewriter

`process_content` mutates the BeautifulSoup tree pass by pass; each pass
snapshots `find_all(...)` and rewrites, unwraps or decomposes matches.
The embedding turns each pass into a structural transformation of the
child list; unwrapping an element splices its (still to be processed)
children into the parent's list, exactly as the snapshot iteration does. -/

namespace Wordpress

open Node

/-- WP_MEDIA_PATH from 04_create_wordpress_file.py. -/
def WP_MEDIA_PATH : String := "../wp-content/uploads/typepad_media/"

/-- The media-extension list of Rule 2 (line 144). -/
def mediaSuffixes : List String :=
  [".jpg", ".jpeg", ".png", ".gif", ".webp", ".pdf", ".zip", ".doc", ".docx", ".mp3"]

/-- The editor's-note phrases of Step 1 (line 103). -/
def editorNotePhrases : List String :=
  ["Back in March", "none of the images will work", "a lot of links are now broken"]

/-- 04_create_wordpress_file.py lines 80-95, `find_file_in_map`: look up
the full original-path stem in `stem_map` first (a falsy hit falls
through, as in the source's `if found_file:`), then fall back to the bare
filename stem in `basename_map`. -/
def find_file_in_map (originalUrl localFileSlug : String)
    (stemMap basenameMap : List (String × String)) : Option String :=
  let stem := osSplitextRoot (osBasename (urlparsePath originalUrl))
  let pathStemToFind := osJoin (osJoin "posts" localFileSlug) stem
  match alookup stemMap pathStemToFind with
  | some f => if f = "" then alookup basenameMap stem else some f
  | none => alookup basenameMap stem

/-- 04_create_wordpress_file.py lines 300-313 of `main`: build the
optimized lookup maps from the loaded file map.  `stem_map` assignment
overwrites; `basename_map` keeps the first entry per stem. -/
def buildLookupMaps (fileMap : List (String × String)) :
    List (String × String) × List (String × String) :=
  fileMap.foldl
    (fun acc e =>
      let stemMap := mapInsert acc.1 (osSplitextRoot e.1) e.2
      let bstem := osSplitextRoot (osBasename e.1)
      let basenameMap := if (alookup acc.2 bstem).isSome then acc.2 else acc.2 ++ [(bstem, e.2)]
      (stemMap, basenameMap))
    ([], [])

/-- Remove the attribute `k`, modelling `del tag[k]`. -/
def delAttr (attrs : List (String × String)) (k : String) : List (String × String) :=
  attrs.filter (fun p => p.1 ≠ k)

/-- The non-flag arguments of `process_content`, bundled. -/
structure REnv where
  stemMap : List (String × String)
  basenameMap : List (String × String)
  localFileSlug : String
  blogUrl : Option String
  scrubPopups : Bool

mutual

/-- Step 1 (lines 102-107): decompose every `p` whose text contains all
editor's-note phrases; a decomposed outer `p` removes its inner matches
exactly as the snapshot iteration would. -/
def scrubNotesNode : Node → List Node
  | .text s => [.text s]
  | .elem nm attrs cs =>
      if nm == "p" && editorNotePhrases.all (fun ph => strContains (nodesText cs) ph) then []
      else [.elem nm attrs (scrubNotesList cs)]

/-- Step 1 over a child list. -/
def scrubNotesList : List Node → List Node
  | [] => []
  | n :: rest => scrubNotesNode n ++ scrubNotesList rest

end

mutual

/-- Step 2 (lines 109-112): unwrap every `td` whose parent is not a `tr`;
spliced children keep the unwrapped element's parent, matching the
snapshot iteration. -/
def unwrapTdsNode (parentName : String) : Node → List Node
  | .text s => [.text s]
  | .elem nm attrs cs =>
      if nm == "td" && parentName != "tr" then unwrapTdsList parentName cs
      else [.elem nm attrs (unwrapTdsList nm cs)]

/-- Step 2 over a child list. -/
def unwrapTdsList : String → List Node → List Node
  | _, [] => []
  | parentName, n :: rest => unwrapTdsNode parentName n ++ unwrapTdsList parentName rest

end

mutual

/-- Step 3 (lines 114-117): unwrap every `div`. -/
def unwrapDivsNode : Node → List Node
  | .text s => [.text s]
  | .elem nm attrs cs =>
      if nm == "div" then unwrapDivsList cs
      else [.elem nm attrs (unwrapDivsList cs)]

/-- Step 3 over a child list. -/
def unwrapDivsList : List Node → List Node
  | [] => []
  | n :: rest => unwrapDivsNode n ++ unwrapDivsList rest

end

mutual

/-- Step 4 (lines 119-122): replace every `br` with a single space. -/
def removeBrsNode : Node → Node
  | .text s => .text s
  | .elem nm attrs cs =>
      if nm == "br" then .text " " else .elem nm attrs (removeBrsList cs)

/-- Step 4 over a child list. -/
def removeBrsList : List Node → List Node
  | [] => []
  | n :: rest => removeBrsNode n :: removeBrsList rest

end

/-- What Step 5 does to one anchor: unwrap it, decompose it, or keep it
with (possibly rewritten) attributes. -/
inductive AnchorAct where
  | unwrapA
  | decomposeA
  | keepA (attrs : List (String × String))

/-- Step 5 (lines 124-160): the decision for one `a` tag with an `href`
attribute, mirroring Rules 1-3 including every fall-through. -/
def anchorAction (env : REnv) (attrs : List (String × String))
    (children : List Node) : AnchorAct :=
  let href := (alookup attrs "href").getD ""
  let onclick := (alookup attrs "onclick").getD ""
  let isKnownPopupUrl := strContains href ".shared/image.html" || strEnds href "-popup"
  let isGenericJsPopup := strContains href "typepad.com" && strContains onclick "window.open"
  if env.scrubPopups && (isKnownPopupUrl || isGenericJsPopup) then
    if nodesHaveImg children then .unwrapA
    else if nodesTextStrip children = "" then .decomposeA
    else .keepA attrs
  else
    let rule3 : AnchorAct :=
      match find_file_in_map href env.localFileSlug env.stemMap env.basenameMap with
      | some f =>
          if f = "" then .keepA attrs
          else if nodesHaveImg children then .unwrapA
          else .keepA (mapInsert attrs "href" (WP_MEDIA_PATH ++ f))
      | none => .keepA attrs
    let blogB := env.blogUrl.getD ""
    if blogB ≠ "" ∧ strStarts href blogB then
      if mediaSuffixes.any (fun e => strEnds (strLower href) e) then rule3
      else
        let slug := osSplitextRoot (osBasename (urlparsePath href))
        if slug ≠ "" then .keepA (mapInsert attrs "href" ("/" ++ slug ++ "/"))
        else rule3
    else rule3

mutual

/-- Step 5 over one node: anchors with an `href` are processed by
`anchorAction`; an unwrap splices the (recursively processed) children,
matching the snapshot iteration over `find_all('a', href=True)`. -/
def anchorsNode (env : REnv) : Node → List Node
  | .text s => [.text s]
  | .elem nm attrs cs =>
      if nm == "a" && (alookup attrs "href").isSome then
        match anchorAction env attrs cs with
        | .unwrapA => anchorsList env cs
        | .decomposeA => []
        | .keepA attrs2 => [.elem nm attrs2 (anchorsList env cs)]
      else [.elem nm attrs (anchorsList env cs)]

/-- Step 5 over a child list. -/
def anchorsList (env : REnv) : List Node → List Node
  | [] => []
  | n :: rest => anchorsNode env n ++ anchorsList env rest

end

/-- Step 6 (lines 162-178): the attribute rewrite for one `img` tag with a
`src`: resolve the src through the maps, then convert inline float styles
to alignment classes (deleting `style` whenever the class list is
nonempty). -/
def imgAttrsStep (env : REnv) (attrs : List (String × String)) : List (String × String) :=
  let src := (alookup attrs "src").getD ""
  let attrs1 :=
    match find_file_in_map src env.localFileSlug env.stemMap env.basenameMap with
    | some f => if f = "" then attrs else mapInsert attrs "src" (WP_MEDIA_PATH ++ f)
    | none => attrs
  match alookup attrs1 "style" with
  | none => attrs1
  | some styleV =>
      let style := strLower styleV
      let baseClasses := splitClasses ((alookup attrs1 "class").getD "")
      let newClasses := baseClasses ++
        (if strContains style "float: right" then ["alignright"]
         else if strContains style "float: left" then ["alignleft"] else [])
      if newClasses ≠ [] then delAttr (mapInsert attrs1 "class" (joinSpace newClasses)) "style"
      else attrs1

mutual

/-- Step 6 over one node. -/
def imgsNode (env : REnv) : Node → Node
  | .text s => .text s
  | .elem nm attrs cs =>
      if nm == "img" && (alookup attrs "src").isSome then
        .elem nm (imgAttrsStep env attrs) (imgsList env cs)
      else .elem nm attrs (imgsList env cs)

/-- Step 6 over a child list. -/
def imgsList : REnv → List Node → List Node
  | _, [] => []
  | env, n :: rest => imgsNode env n :: imgsList env rest

end

/-- 04_create_wordpress_file.py lines 97-180, `process_content`: the six
passes applied in order to the content element's descendants. -/
def process_content (soupContent : Node) (stemMap basenameMap : List (String × String))
    (localFileSlug : String) (blogUrl : Option String)
    (scrubPopups removeDivs removeBrs : Bool) : Node :=
  match soupContent with
  | .text s => .text s
  | .elem nm attrs cs =>
      let env : REnv := ⟨stemMap, basenameMap, localFileSlug, blogUrl, scrubPopups⟩
      let c1 := scrubNotesList cs
      let c2 := unwrapTdsList nm c1
      let c3 := if removeDivs then unwrapDivsList c2 else c2
      let c4 := if removeBrs then removeBrsList c3 else c3
      let c5 := anchorsList env c4
      let c6 := imgsList env c5
      .elem nm attrs c6

end Wordpress

/-! ## Theorems -/

/-! ### Shared association-list lemmas -/

theorem alookup_mapInsert_self {κ α : Type} [DecidableEq κ] (m : List (κ × α)) (k : κ) (v : α) :
    alookup (mapInsert m k v) k = some v := by
  induction m with
  | nil => simp [mapInsert, alookup]
  | cons p rest ih =>
      by_cases h : p.1 = k
      · simp [mapInsert, h, alookup]
      · simp [mapInsert, h, alookup, ih]

theorem alookup_mapInsert_ne {κ α : Type} [DecidableEq κ] (m : List (κ × α)) (k k2 : κ) (v : α)
    (hne : k ≠ k2) : alookup (mapInsert m k v) k2 = alookup m k2 := by
  induction m with
  | nil => simp [mapInsert, alookup, hne]
  | cons p rest ih =>
      by_cases h : p.1 = k
      · simp [mapInsert, h, alookup, hne]
      · simp [mapInsert, h, alookup, ih]

theorem alookup_append {κ α : Type} [DecidableEq κ] (m1 m2 : List (κ × α)) (k : κ) :
    alookup (m1 ++ m2) k =
      (match alookup m1 k with
       | some v => some v
       | none => alookup m2 k) := by
  induction m1 with
  | nil => simp [alookup]
  | cons p rest ih =>
      by_cases h : p.1 = k
      · simp [alookup, h]
      · simp [alookup, h, ih]

theorem alookup_mem {κ α : Type} [DecidableEq κ] (m : List (κ × α)) (k : κ) (v : α)
    (h : alookup m k = some v) : (k, v) ∈ m := by
  induction m with
  | nil => simp [alookup] at h
  | cons p rest ih =>
      by_cases hp : p.1 = k
      · simp only [alookup, hp, if_pos] at h
        obtain ⟨a, b⟩ := p
        simp only at hp
        subst hp
        injection h with h
        subst h
        exact List.mem_cons_self _ _
      · simp only [alookup, hp, if_neg, not_false_iff] at h
        exact List.mem_cons_of_mem _ (ih h)

theorem alookup_isSome_of_mem {κ α : Type} [DecidableEq κ] (m : List (κ × α)) (k : κ)
    (h : k ∈ m.map Prod.fst) : (alookup m k).isSome := by
  induction m with
  | nil => simp at h
  | cons p rest ih =>
      by_cases hp : p.1 = k
      · simp [alookup, hp]
      · simp only [alookup, hp, if_neg, not_false_iff]
        apply ih
        simp only [List.map_cons, List.mem_cons] at h
        rcases h with h | h
        · exact absurd h.symm hp
        · exact h

/-! ### Claim C4: extension-resolution cascade in `download_file` -/

namespace Posts

/-- A successful GET resolves the written path, extension and bytes as in
lines 267-276; the header-derived extension (from `dlHeadExt`) takes
precedence over sniffing the body. -/
theorem download_file_success (a : Attempt) (rest : List Attempt) (savePath : String) (ff : Bool)
    (headExt : Option String) (hhead : dlHeadExt a.headR = some headExt)
    (g : HttpResp) (hget : a.getR = .ok g) (hst : g.status = 200) :
    download_file (a :: rest) savePath ff =
      ⟨true, [(dlFinalPath savePath (dlExt headExt g.content), g.content)],
        dlExt headExt g.content, 1, 0⟩ := by
  simp [download_file, hhead, hget, hst]

/-- C4 (amended).  File-extension resolution in `download_file` is a
cascade in which a declared content type from a successful HEAD request
takes precedence over the body: if the Content-Type header maps through
the fixed type→extension table, the resulting extension is used even when
the body does not match that type's signature; only when no header-derived
extension exists are the first bytes of the body checked against the known
binary signatures — which are JPEG, PNG, GIF and WEBP only (the PDF, BMP,
TIFF and SVG types appear in the header table but have no body
signature); if still unresolved the file is stored at the requested path
without an inferred extension. -/
theorem c4_extension_cascade :
    (∀ a rest savePath ff h g e,
      a.headR = Tried.ok h → h.status = 200 →
      get_file_extension_from_content_type h.contentType = some e →
      a.getR = Tried.ok g → g.status = 200 →
      (download_file (a :: rest) savePath ff).usedExt = some e) ∧
    (∀ a rest savePath ff g,
      dlHeadExt a.headR = some none → a.getR = Tried.ok g → g.status = 200 →
      (download_file (a :: rest) savePath ff).usedExt =
        detect_file_extension_from_content g.content) ∧
    (∀ c e, detect_file_extension_from_content c = some e →
      e = ".jpg" ∨ e = ".png" ∨ e = ".gif" ∨ e = ".webp") ∧
    (∀ a rest savePath ff g,
      dlHeadExt a.headR = some none → a.getR = Tried.ok g → g.status = 200 →
      detect_file_extension_from_content g.content = none →
      (download_file (a :: rest) savePath ff).written = [(savePath, g.content)] ∧
      (download_file (a :: rest) savePath ff).usedExt = none) := by
  refine ⟨?_, ?_, ?_, ?_⟩
  · intro a rest savePath ff h g e hh hst hct hget hgst
    have hhead : dlHeadExt a.headR = some (some e) := by
      rw [hh]; simp [dlHeadExt, hst, hct]
    rw [download_file_success a rest savePath ff (some e) hhead g hget hgst]
    simp [dlExt]
  · intro a rest savePath ff g hhead hget hgst
    rw [download_file_success a rest savePath ff none hhead g hget hgst]
    simp [dlExt]
  · intro c e h
    unfold detect_file_extension_from_content at h
    split_ifs at h <;> simp_all
  · intro a rest savePath ff g hhead hget hgst hdet
    rw [download_file_success a rest savePath ff none hhead g hget hgst]
    simp [dlExt, dlFinalPath, hdet]

/-- Witness for C4: a PNG Content-Type with a GIF body still resolves to
`.png`; with an unusable header, a GIF89a body resolves by signature. -/
theorem c4_extension_cascade_witness :
    (download_file
        [⟨Tried.ok ⟨200, "image/png", [], ""⟩,
          Tried.ok ⟨200, "", [0x47, 0x49, 0x46, 0x38, 0x39, 0x61, 0, 0], ""⟩⟩,
         ⟨Tried.exn, Tried.exn⟩, ⟨Tried.exn, Tried.exn⟩] "f" false).usedExt = some ".png" ∧
    (download_file
        [⟨Tried.exn, Tried.ok ⟨200, "", [0x47, 0x49, 0x46, 0x38, 0x39, 0x61, 0, 0], ""⟩⟩,
         ⟨Tried.exn, Tried.exn⟩, ⟨Tried.exn, Tried.exn⟩] "f" false).usedExt =
      detect_file_extension_from_content [0x47, 0x49, 0x46, 0x38, 0x39, 0x61, 0, 0] := by
  constructor
  · exact c4_extension_cascade.1
      ⟨Tried.ok ⟨200, "image/png", [], ""⟩,
        Tried.ok ⟨200, "", [0x47, 0x49, 0x46, 0x38, 0x39, 0x61, 0, 0], ""⟩⟩
      [⟨Tried.exn, Tried.exn⟩, ⟨Tried.exn, Tried.exn⟩] "f" false
      ⟨200, "image/png", [], ""⟩ ⟨200, "", [0x47, 0x49, 0x46, 0x38, 0x39, 0x61, 0, 0], ""⟩
      ".png" rfl rfl (by decide) rfl rfl
  · exact c4_extension_cascade.2.1
      ⟨Tried.exn, Tried.ok ⟨200, "", [0x47, 0x49, 0x46, 0x38, 0x39, 0x61, 0, 0], ""⟩⟩
      [⟨Tried.exn, Tried.exn⟩, ⟨Tried.exn, Tried.exn⟩] "f" false
      ⟨200, "", [0x47, 0x49, 0x46, 0x38, 0x39, 0x61, 0, 0], ""⟩ (by decide) rfl rfl

/-- C4 counterexample: a response with no usable header and a body starting
with the PDF signature `%PDF-` is stored without an inferred extension —
the body is not checked against a PDF signature, contradicting the claimed
signature list. -/
theorem c4_counterexample :
    detect_file_extension_from_content [0x25, 0x50, 0x44, 0x46, 0x2d, 0x31, 0x2e, 0x34] = none ∧
    (download_file
        [⟨Tried.exn, Tried.ok ⟨200, "", [0x25, 0x50, 0x44, 0x46, 0x2d, 0x31, 0x2e, 0x34], ""⟩⟩,
         ⟨Tried.exn, Tried.exn⟩, ⟨Tried.exn, Tried.exn⟩] "posts/p/file" false).written =
      [("posts/p/file", [0x25, 0x50, 0x44, 0x46, 0x2d, 0x31, 0x2e, 0x34])] ∧
    osSplitextExt "posts/p/file" = "" := by
  decide

/-! ### Claim C9: fail-fast on 5xx and the thumbnail-first caller -/

/-- C9.  `download_file` with `fail_fast_on_500=True` returns failure
immediately on any GET response with a 5xx status — one loop iteration,
no retry sleep, nothing written — and the media loop, when it has a
thumbnail-suffix-stripped URL variant, tries that variant first under
fail-fast and falls back to downloading the original URL with the
separate (full) retry script exactly when the first call fails. -/
theorem c9_fail_fast :
    (∀ (a : Attempt) (rest : List Attempt) (savePath : String) (ext : Option String)
        (g : HttpResp),
      dlHeadExt a.headR = some ext → a.getR = Tried.ok g →
      500 ≤ g.status → g.status < 600 →
      download_file (a :: rest) savePath true = ⟨false, [], none, 1, 0⟩) ∧
    (∀ postUrl mediaDirPath i hrefA env fs link, env.raiseExn = false →
      link ≠ "" →
      strContains link ".typepad.com/" = true →
      urljoin postUrl (stripWiSuffix link) ≠ urljoin postUrl link →
      osBasename (urlparsePath (urljoin postUrl link)) ≠ "" →
      osJoin mediaDirPath (osBasename (urlparsePath (urljoin postUrl link))) ∉ fs →
      ∃ o, mediaTagStep postUrl mediaDirPath i ⟨"img", some link, hrefA⟩ env fs = Except.ok o ∧
        o.calls =
          (if (download_file env.firstTry
                  (osJoin mediaDirPath (osBasename (urlparsePath (urljoin postUrl link))))
                  true).success
           then [(urljoin postUrl (stripWiSuffix link), true)]
           else [(urljoin postUrl (stripWiSuffix link), true), (urljoin postUrl link, false)])) := by
  constructor
  · intro a rest savePath ext g hhead hget h5 h6
    have h200 : ¬ g.status = 200 := by omega
    have h404 : ¬ g.status = 404 := by omega
    simp [download_file, hhead, hget, h200, h404, h5, h6]
  · intro postUrl mediaDirPath i hrefA env fs link hraise hlink htp hdiff hfn hmem
    simp only [mediaTagStep, hraise, Bool.false_eq_true, if_false, Option.getD_some,
      eq_self_iff_true, if_true, ite_true, ite_false, not_true, false_and, or_false]
    rw [if_neg (by simp [hlink])]
    simp only [if_neg hfn]
    rw [if_neg hmem]
    rw [if_pos (show True ∧ strContains link ".typepad.com/" = true ∧
          urljoin postUrl (stripWiSuffix link) ≠ urljoin postUrl link from ⟨trivial, htp, hdiff⟩)]
    by_cases hs : (download_file env.firstTry
        (osJoin mediaDirPath (osBasename (urlparsePath (urljoin postUrl link)))) true).success = true
    · rw [if_pos hs]
      exact ⟨_, rfl, by rw [if_pos hs]⟩
    · rw [if_neg hs]
      exact ⟨_, rfl, by rw [if_neg hs]⟩

/-- Witness for C9: a 503 GET under fail-fast fails in one attempt with no
sleeps, and the media loop for a `-320wi` typepad image whose fail-fast
try 503s falls back to the original URL. -/
theorem c9_fail_fast_witness :
    download_file [⟨Tried.exn, Tried.ok ⟨503, "", [], ""⟩⟩, ⟨Tried.exn, Tried.exn⟩,
        ⟨Tried.exn, Tried.exn⟩] "f" true = ⟨false, [], none, 1, 0⟩ ∧
    ∃ o, mediaTagStep "https://a.typepad.com/blog/post.html" "posts/0001_post" 0
          ⟨"img", some "https://a.typepad.com/.a/6a0-320wi", none⟩
          ⟨false, [⟨Tried.exn, Tried.ok ⟨503, "", [], ""⟩⟩],
            [⟨Tried.exn, Tried.ok ⟨200, "", [0xff, 0xd8, 0xff, 0, 0, 0, 0, 0], ""⟩⟩]⟩ []
        = Except.ok o ∧
      o.calls = [("https://a.typepad.com/.a/6a0", true),
                 ("https://a.typepad.com/.a/6a0-320wi", false)] := by
  constructor
  · exact c9_fail_fast.1 ⟨Tried.exn, Tried.ok ⟨503, "", [], ""⟩⟩
      [⟨Tried.exn, Tried.exn⟩, ⟨Tried.exn, Tried.exn⟩] "f" none ⟨503, "", [], ""⟩
      (by decide) rfl (by norm_num) (by norm_num)
  · obtain ⟨o, ho, hc⟩ := c9_fail_fast.2 "https://a.typepad.com/blog/post.html"
      "posts/0001_post" 0 none
      ⟨false, [⟨Tried.exn, Tried.ok ⟨503, "", [], ""⟩⟩],
        [⟨Tried.exn, Tried.ok ⟨200, "", [0xff, 0xd8, 0xff, 0, 0, 0, 0, 0], ""⟩⟩]⟩ []
      "https://a.typepad.com/.a/6a0-320wi" rfl (by decide) (by decide) (by decide)
      (by decide) (by decide)
    exact ⟨o, ho, by rw [hc]; decide⟩

/-! ### Claim C10: inferred extensions leave the extension-less path absent -/

theorem ct_ext_mem (ct e : String) (h : get_file_extension_from_content_type ct = some e) :
    e ∈ [".jpg", ".png", ".gif", ".webp", ".svg", ".bmp", ".tiff", ".pdf"] := by
  unfold get_file_extension_from_content_type at h
  split_ifs at h
  have hm := alookup_mem _ _ _ h
  simp only [content_type_map, List.mem_cons, List.not_mem_nil, or_false,
    Prod.mk.injEq] at hm
  rcases hm with ⟨_, rfl⟩ | ⟨_, rfl⟩ | ⟨_, rfl⟩ | ⟨_, rfl⟩ | ⟨_, rfl⟩ | ⟨_, rfl⟩ |
    ⟨_, rfl⟩ | ⟨_, rfl⟩ | ⟨_, rfl⟩ <;> decide

theorem detect_ext_mem (c : Bytes) (e : String)
    (h : detect_file_extension_from_content c = some e) :
    e ∈ [".jpg", ".png", ".gif", ".webp"] := by
  unfold detect_file_extension_from_content at h
  split_ifs at h <;> simp_all

theorem dlExt_ne_empty (headR : Tried HttpResp) (headExt : Option String)
    (hhead : dlHeadExt headR = some headExt) (body : Bytes) (e : String)
    (h : dlExt headExt body = some e) : e ≠ "" := by
  cases headExt with
  | none =>
      simp only [dlExt] at h
      have := detect_ext_mem body e h
      fin_cases this <;> decide
  | some e0 =>
      simp only [dlExt] at h
      injection h with h
      subst h
      cases headR with
      | exn =>
          simp only [dlHeadExt] at hhead
          injection hhead with hh
          exact Option.noConfusion hh
      | ok r =>
          simp only [dlHeadExt] at hhead
          split_ifs at hhead with h1 h2
          · injection hhead with hh
            have hmem := ct_ext_mem r.contentType _ hh
            fin_cases hmem <;> decide
          · injection hhead with hh
            exact Option.noConfusion hh

theorem str_append_ne_self (sp e : String) (he : e ≠ "") : sp ++ e ≠ sp := by
  intro h
  have hl : (sp ++ e).length = sp.length := by rw [h]
  rw [String.length_append] at hl
  apply he
  obtain ⟨data⟩ := e
  cases data with
  | nil => rfl
  | cons c cs =>
      have hlen : (String.mk (c :: cs)).length = cs.length + 1 := rfl
      rw [hlen] at hl
      omega

/-- A 5xx or 404 (without success) attempt returns failure immediately. -/
theorem download_file_get_stop (a : Attempt) (rest : List Attempt) (savePath : String)
    (ff : Bool) (headExt : Option String) (hh : dlHeadExt a.headR = some headExt)
    (g : HttpResp) (hg : a.getR = Tried.ok g) (h200 : g.status ≠ 200)
    (hstop : (500 ≤ g.status ∧ g.status < 600 ∧ ff = true) ∨ g.status = 404) :
    download_file (a :: rest) savePath ff = ⟨false, [], none, 1, 0⟩ := by
  rcases hstop with hstop | hstop
  · simp [download_file, hh, hg, h200, hstop]
  · by_cases hff : 500 ≤ g.status ∧ g.status < 600 ∧ ff = true
    · simp [download_file, hh, hg, h200, hff]
    · simp [download_file, hh, hg, h200, hff, hstop]

/-- An attempt that neither succeeds nor stops retries on the remaining
script, sleeping unless it was the last attempt. -/
theorem download_file_retry_ok (a : Attempt) (rest : List Attempt) (savePath : String)
    (ff : Bool) (headExt : Option String) (hh : dlHeadExt a.headR = some headExt)
    (g : HttpResp) (hg : a.getR = Tried.ok g) (h200 : g.status ≠ 200)
    (hff : ¬(500 ≤ g.status ∧ g.status < 600 ∧ ff = true)) (h404 : g.status ≠ 404) :
    download_file (a :: rest) savePath ff =
      ⟨(download_file rest savePath ff).success, (download_file rest savePath ff).written,
       (download_file rest savePath ff).usedExt, (download_file rest savePath ff).attempts + 1,
       (if rest.isEmpty then 0 else 1) + (download_file rest savePath ff).sleeps⟩ := by
  simp [download_file, hh, hg, h200, hff, h404]

/-- A raised GET exception retries on the remaining script. -/
theorem download_file_retry_exn (a : Attempt) (rest : List Attempt) (savePath : String)
    (ff : Bool) (headExt : Option String) (hh : dlHeadExt a.headR = some headExt)
    (hg : a.getR = Tried.exn) :
    download_file (a :: rest) savePath ff =
      ⟨(download_file rest savePath ff).success, (download_file rest savePath ff).written,
       (download_file rest savePath ff).usedExt, (download_file rest savePath ff).attempts + 1,
       (if rest.isEmpty then 0 else 1) + (download_file rest savePath ff).sleeps⟩ := by
  simp [download_file, hh, hg]

/-- A HEAD 404 returns failure immediately. -/
theorem download_file_head404 (a : Attempt) (rest : List Attempt) (savePath : String)
    (ff : Bool) (hh : dlHeadExt a.headR = none) :
    download_file (a :: rest) savePath ff = ⟨false, [], none, 1, 0⟩ := by
  simp [download_file, hh]

/-- A successful `download_file` with an inferred extension writes exactly
one file, at the final save path, and the extension is nonempty. -/
theorem download_file_success_written :
    ∀ (script : List Attempt) (savePath : String) (ff : Bool) (e : String),
      (download_file script savePath ff).success = true →
      (download_file script savePath ff).usedExt = some e →
      e ≠ "" ∧ ∃ b, (download_file script savePath ff).written =
        [(dlFinalPath savePath (some e), b)] := by
  intro script
  induction script with
  | nil =>
      intro savePath ff e hsucc hext
      simp [download_file] at hsucc
  | cons a rest ih =>
      intro savePath ff e hsucc hext
      rcases hh : dlHeadExt a.headR with _ | headExt
      · rw [download_file_head404 a rest savePath ff hh] at hsucc
        exact absurd hsucc (by simp)
      · rcases hg : a.getR with g | _
        · by_cases h200 : g.status = 200
          · have hr := download_file_success a rest savePath ff headExt hh g hg h200
            rw [hr] at hsucc hext ⊢
            simp only at hext ⊢
            refine ⟨dlExt_ne_empty a.headR headExt hh g.content e hext, g.content, ?_⟩
            simp [hext]
          · by_cases hstop : (500 ≤ g.status ∧ g.status < 600 ∧ ff = true) ∨ g.status = 404
            · rw [download_file_get_stop a rest savePath ff headExt hh g hg h200 hstop] at hsucc
              exact absurd hsucc (by simp)
            · have hff : ¬(500 ≤ g.status ∧ g.status < 600 ∧ ff = true) :=
                fun hc => hstop (Or.inl hc)
              have h404 : g.status ≠ 404 := fun hc => hstop (Or.inr hc)
              have hr := download_file_retry_ok a rest savePath ff headExt hh g hg h200
                hff h404
              rw [hr] at hsucc hext ⊢
              exact ih savePath ff e hsucc hext
        · have hr := download_file_retry_exn a rest savePath ff headExt hh hg
          rw [hr] at hsucc hext ⊢
          exact ih savePath ff e hsucc hext

/-- C10 (implicit).  When `download_file` succeeds on a destination path
with no extension and an extension is inferred, the bytes are written to
`path ++ ext` and nothing is created at the requested path itself; in the
media loop (for an image link with no typepad thumbnail variant), the
post-download file set therefore still lacks the extension-less save
path, so the rerun's `os.path.exists` check fails and the item is
downloaded again instead of being skipped. -/
theorem c10_extensionless_refetch :
    (∀ (script : List Attempt) (savePath : String) (ff : Bool) (e : String),
      osSplitextExt savePath = "" →
      (download_file script savePath ff).success = true →
      (download_file script savePath ff).usedExt = some e →
      (∃ b, (download_file script savePath ff).written = [(savePath ++ e, b)]) ∧
      savePath ++ e ≠ savePath) ∧
    (∀ postUrl mediaDirPath i hrefA env fs link e, env.raiseExn = false →
      link ≠ "" →
      strContains link ".typepad.com/" = false →
      osBasename (urlparsePath (urljoin postUrl link)) ≠ "" →
      osJoin mediaDirPath (osBasename (urlparsePath (urljoin postUrl link))) ∉ fs →
      osSplitextExt (osJoin mediaDirPath (osBasename (urlparsePath (urljoin postUrl link)))) = "" →
      (download_file env.secondTry
        (osJoin mediaDirPath (osBasename (urlparsePath (urljoin postUrl link)))) false).success = true →
      (download_file env.secondTry
        (osJoin mediaDirPath (osBasename (urlparsePath (urljoin postUrl link)))) false).usedExt = some e →
      ∃ o, mediaTagStep postUrl mediaDirPath i ⟨"img", some link, hrefA⟩ env fs = Except.ok o ∧
        osJoin mediaDirPath (osBasename (urlparsePath (urljoin postUrl link))) ∉ o.fs ∧
        ∃ o2, mediaTagStep postUrl mediaDirPath i ⟨"img", some link, hrefA⟩ env o.fs = Except.ok o2 ∧
          o2.skipped = false ∧ o2.calls = [(urljoin postUrl link, false)]) := by
  have main : ∀ (script : List Attempt) (savePath : String) (ff : Bool) (e : String),
      osSplitextExt savePath = "" →
      (download_file script savePath ff).success = true →
      (download_file script savePath ff).usedExt = some e →
      (∃ b, (download_file script savePath ff).written = [(savePath ++ e, b)]) ∧
      savePath ++ e ≠ savePath := by
    intro script savePath ff e hsp hsucc hext
    obtain ⟨hne, b, hw⟩ := download_file_success_written script savePath ff e hsucc hext
    constructor
    · exact ⟨b, by rw [hw]; simp [dlFinalPath, hsp]⟩
    · exact str_append_ne_self savePath e hne
  refine ⟨main, ?_⟩
  intro postUrl mediaDirPath i hrefA env fs link e hraise hlink htpF hfn hmem hsp hsucc hext
  obtain ⟨⟨b, hw⟩, hne⟩ := main env.secondTry
    (osJoin mediaDirPath (osBasename (urlparsePath (urljoin postUrl link)))) false e hsp hsucc hext
  have hstep : mediaTagStep postUrl mediaDirPath i ⟨"img", some link, hrefA⟩ env fs =
      Except.ok ⟨fs ++ (download_file env.secondTry
          (osJoin mediaDirPath (osBasename (urlparsePath (urljoin postUrl link)))) false).written.map (·.1),
        (download_file env.secondTry
          (osJoin mediaDirPath (osBasename (urlparsePath (urljoin postUrl link)))) false).written.map
            (fun w => .wroteMedia w.1),
        [(urljoin postUrl link, false)],
        (download_file env.secondTry
          (osJoin mediaDirPath (osBasename (urlparsePath (urljoin postUrl link)))) false).success,
        false⟩ := by
    simp only [mediaTagStep, hraise, Bool.false_eq_true, if_false, Option.getD_some,
      eq_self_iff_true, if_true, ite_true, ite_false, not_true, false_and, or_false]
    rw [if_neg (by simp [hlink])]
    simp only [if_neg hfn]
    rw [if_neg hmem]
    rw [if_neg (by simp [htpF])]
  refine ⟨_, hstep, ?_, ?_⟩
  · simp only [hw, List.map_cons, List.map_nil]
    intro hmem2
    rcases List.mem_append.mp hmem2 with h1 | h1
    · exact hmem h1
    · simp only [List.mem_cons, List.not_mem_nil, or_false] at h1
      exact hne h1.symm
  · have hmem3 : osJoin mediaDirPath (osBasename (urlparsePath (urljoin postUrl link))) ∉
        fs ++ (download_file env.secondTry
          (osJoin mediaDirPath (osBasename (urlparsePath (urljoin postUrl link)))) false).written.map (·.1) := by
      simp only [hw, List.map_cons, List.map_nil]
      intro hmem2
      rcases List.mem_append.mp hmem2 with h1 | h1
      · exact hmem h1
      · simp only [List.mem_cons, List.not_mem_nil, or_false] at h1
        exact hne h1.symm
    have hstep2 : mediaTagStep postUrl mediaDirPath i ⟨"img", some link, hrefA⟩ env
        (fs ++ (download_file env.secondTry
          (osJoin mediaDirPath (osBasename (urlparsePath (urljoin postUrl link)))) false).written.map (·.1)) =
        Except.ok ⟨(fs ++ (download_file env.secondTry
            (osJoin mediaDirPath (osBasename (urlparsePath (urljoin postUrl link)))) false).written.map (·.1)) ++
            (download_file env.secondTry
              (osJoin mediaDirPath (osBasename (urlparsePath (urljoin postUrl link)))) false).written.map (·.1),
          (download_file env.secondTry
            (osJoin mediaDirPath (osBasename (urlparsePath (urljoin postUrl link)))) false).written.map
              (fun w => .wroteMedia w.1),
          [(urljoin postUrl link, false)],
          (download_file env.secondTry
            (osJoin mediaDirPath (osBasename (urlparsePath (urljoin postUrl link)))) false).success,
          false⟩ := by
      simp only [mediaTagStep, hraise, Bool.false_eq_true, if_false, Option.getD_some,
        eq_self_iff_true, if_true, ite_true, ite_false, not_true, false_and, or_false]
      rw [if_neg (by simp [hlink])]
      simp only [if_neg hfn]
      rw [if_neg hmem3]
      rw [if_neg (by simp [htpF])]
    exact ⟨_, hstep2, rfl, rfl⟩

set_option maxRecDepth 40000 in
/-- Witness for C10: a GIF-sniffed download onto an extension-less path
writes only `path ++ ".gif"`, and the rerun of the media-loop step is not
skipped. -/
theorem c10_extensionless_refetch_witness :
    ((∃ b, (download_file
        [⟨Tried.exn, Tried.ok ⟨200, "", [0x47, 0x49, 0x46, 0x38, 0x39, 0x61, 0, 0], ""⟩⟩,
         ⟨Tried.exn, Tried.exn⟩, ⟨Tried.exn, Tried.exn⟩] "posts/p/img" false).written =
        [("posts/p/img" ++ ".gif", b)]) ∧ "posts/p/img" ++ ".gif" ≠ "posts/p/img") ∧
    ∃ o, mediaTagStep "https://h.example/blog/post.html" "posts/p" 0
          ⟨"img", some "img", none⟩
          ⟨false, [], [⟨Tried.exn, Tried.ok ⟨200, "", [0x47, 0x49, 0x46, 0x38, 0x39, 0x61, 0, 0], ""⟩⟩,
            ⟨Tried.exn, Tried.exn⟩, ⟨Tried.exn, Tried.exn⟩]⟩ [] = Except.ok o ∧
        osJoin "posts/p" (osBasename (urlparsePath
          (urljoin "https://h.example/blog/post.html" "img"))) ∉ o.fs ∧
        ∃ o2, mediaTagStep "https://h.example/blog/post.html" "posts/p" 0
            ⟨"img", some "img", none⟩
            ⟨false, [], [⟨Tried.exn, Tried.ok ⟨200, "", [0x47, 0x49, 0x46, 0x38, 0x39, 0x61, 0, 0], ""⟩⟩,
              ⟨Tried.exn, Tried.exn⟩, ⟨Tried.exn, Tried.exn⟩]⟩ o.fs = Except.ok o2 ∧
          o2.skipped = false ∧
          o2.calls = [(urljoin "https://h.example/blog/post.html" "img", false)] := by
  constructor
  · exact c10_extensionless_refetch.1
      [⟨Tried.exn, Tried.ok ⟨200, "", [0x47, 0x49, 0x46, 0x38, 0x39, 0x61, 0, 0], ""⟩⟩,
       ⟨Tried.exn, Tried.exn⟩, ⟨Tried.exn, Tried.exn⟩] "posts/p/img" false ".gif"
      (by decide) (by decide) (by decide)
  · exact c10_extensionless_refetch.2 "https://h.example/blog/post.html" "posts/p" 0 none
      ⟨false, [], [⟨Tried.exn, Tried.ok ⟨200, "", [0x47, 0x49, 0x46, 0x38, 0x39, 0x61, 0, 0], ""⟩⟩,
        ⟨Tried.exn, Tried.exn⟩, ⟨Tried.exn, Tried.exn⟩]⟩ [] "img" ".gif"
      rfl (by decide) (by decide) (by decide) (by decide) (by decide) (by decide) (by decide)

/-! ### Claim C2: the downloaded-permalinks log is written last -/

/-- Every event emitted by one media-loop iteration is a media-file
write. -/
theorem mediaTagStep_events_media (postUrl mediaDirPath : String) (i : Nat) (tag : MediaTag)
    (env : TagEnv) (fs : List String) (o : TagOutcome)
    (h : mediaTagStep postUrl mediaDirPath i tag env fs = Except.ok o) :
    ∀ ev ∈ o.events, ∃ p, ev = PUEvent.wroteMedia p := by
  unfold mediaTagStep at h
  dsimp only at h
  split_ifs at h
  all_goals first
    | exact Except.noConfusion h
    | (injection h with h; subst h;
       intro ev hev;
       dsimp only at hev;
       first
         | exact absurd hev (List.not_mem_nil ev)
         | (simp only [List.mem_map] at hev;
            obtain ⟨w, _, rfl⟩ := hev;
            exact ⟨w.1, rfl⟩))

/-- No event of the media loop is a permalink-log append. -/
theorem processMediaLoop_no_log (postUrl mediaDirPath : String) :
    ∀ (tags : List (MediaTag × TagEnv)) (i : Nat) (fs : List String) (st : Stats) (u : String),
      PUEvent.loggedUrl u ∉ (processMediaLoop postUrl mediaDirPath i tags fs st).2.1 := by
  intro tags
  induction tags with
  | nil =>
      intro i fs st u
      simp [processMediaLoop]
  | cons te rest ih =>
      intro i fs st u
      obtain ⟨tag, env⟩ := te
      unfold processMediaLoop
      cases hstep : mediaTagStep postUrl mediaDirPath i tag env fs with
      | error e => simp
      | ok o =>
          simp only []
          intro hmem
          rcases List.mem_append.mp hmem with h1 | h1
          · obtain ⟨p, hp⟩ := mediaTagStep_events_media postUrl mediaDirPath i tag env fs o
              hstep _ h1
            exact PUEvent.noConfusion hp
          · exact ih (i + 1) o.fs _ u h1

/-- Every event written before the log append is an HTML write. -/
theorem ev1_no_log (htmlSavePath : String) (assetsAttempt : Tried String) (u : String) :
    PUEvent.loggedUrl u ∉
      ([PUEvent.wroteHtml htmlSavePath] ++
        (match assetsAttempt with
         | .ok _ => [PUEvent.wroteHtml htmlSavePath]
         | .exn => [])) := by
  cases assetsAttempt <;> simp

theorem mem_loggedUrls (evs : List PUEvent) (u : String) :
    u ∈ loggedUrls evs ↔ PUEvent.loggedUrl u ∈ evs := by
  unfold loggedUrls
  rw [List.mem_filterMap]
  constructor
  · rintro ⟨ev, hev, hu⟩
    cases ev <;> simp at hu
    subst hu
    exact hev
  · intro h
    exact ⟨_, h, rfl⟩

theorem mem_dedupPreserving (u : String) :
    ∀ (l seen : List String), u ∈ l → u ∉ seen → u ∈ dedupPreserving l seen := by
  intro l
  induction l with
  | nil => intro seen h; simp at h
  | cons v rest ih =>
      intro seen hmem hseen
      rcases List.mem_cons.mp hmem with rfl | hmem2
      · rw [dedupPreserving, if_neg hseen]
        exact List.mem_cons_self _ _
      · by_cases hv : v ∈ seen
        · rw [dedupPreserving, if_pos hv]
          exact ih seen hmem2 hseen
        · rw [dedupPreserving, if_neg hv]
          by_cases huv : u = v
          · subst huv; exact List.mem_cons_self _ _
          · refine List.mem_cons_of_mem _ (ih (v :: seen) hmem2 ?_)
            intro hc
            rcases List.mem_cons.mp hc with hc | hc
            · exact huv hc
            · exact hseen hc

theorem mem_urlsToProcessGo (u : String) (downloaded : List String)
    (hd : ¬ downloaded.contains u) :
    ∀ (l : List String) (i : Nat), u ∈ l →
      u ∈ (urlsToProcessGo i l downloaded).map Prod.fst := by
  intro l
  induction l with
  | nil => intro i h; simp at h
  | cons v rest ih =>
      intro i hmem
      rcases List.mem_cons.mp hmem with rfl | hmem2
      · rw [urlsToProcessGo, if_neg (by simpa using hd)]
        simp
      · by_cases hv : downloaded.contains v
        · rw [urlsToProcessGo, if_pos hv]
          exact ih (i + 1) hmem2
        · rw [urlsToProcessGo, if_neg hv]
          simp only [List.map_cons, List.mem_cons]
          exact Or.inr (ih (i + 1) hmem2)

/-- A permalink absent from the downloaded log is submitted on the next
run. -/
theorem mem_urls_to_process (u : String) (permalinks downloaded : List String)
    (hp : u ∈ permalinks) (hd : u ∉ downloaded) :
    u ∈ (urls_to_process permalinks downloaded).map Prod.fst := by
  unfold urls_to_process
  refine mem_urlsToProcessGo u downloaded ?_ (dedupPreserving permalinks []) 0
    (mem_dedupPreserving u permalinks [] hp (by simp))
  intro hc
  exact hd (by simpa using hc)

/-- C2.  In `process_url`, appending the post's URL to the
downloaded-permalinks log is the last event of a normal run; when the post
HTML is never retrieved (404 or retry exhaustion) or an exception escapes
the media loop, the log append is never reached, and the URL — being
absent from downloaded_permalinks.txt — is submitted again on a rerun. -/
theorem c2_write_after_success (postIndex : Nat) (url : String)
    (htmlScript : List (Tried HttpResp)) (assetsAttempt : Tried String)
    (contentTags : Option (List (MediaTag × TagEnv))) (fs : List String) :
    (PUEvent.loggedUrl url ∈ (process_url postIndex url htmlScript assetsAttempt contentTags fs).events →
      (process_url postIndex url htmlScript assetsAttempt contentTags fs).events.getLast?
          = some (PUEvent.loggedUrl url) ∧
      (process_url postIndex url htmlScript assetsAttempt contentTags fs).okRun = true) ∧
    ((fetchHtmlLoop htmlScript = HtmlFetch.notFound ∨
        fetchHtmlLoop htmlScript = HtmlFetch.exhausted) →
      PUEvent.loggedUrl url ∉ (process_url postIndex url htmlScript assetsAttempt contentTags fs).events) ∧
    ((process_url postIndex url htmlScript assetsAttempt contentTags fs).okRun = false →
      PUEvent.loggedUrl url ∉ (process_url postIndex url htmlScript assetsAttempt contentTags fs).events) ∧
    (∀ permalinks prev, url ∈ permalinks → url ∉ prev →
      PUEvent.loggedUrl url ∉ (process_url postIndex url htmlScript assetsAttempt contentTags fs).events →
      url ∈ (urls_to_process permalinks
        (prev ++ loggedUrls (process_url postIndex url htmlScript assetsAttempt contentTags fs).events)).map
          Prod.fst) := by
  have hrerun : ∀ (evs : List PUEvent) (permalinks prev : List String),
      url ∈ permalinks → url ∉ prev → PUEvent.loggedUrl url ∉ evs →
      url ∈ (urls_to_process permalinks (prev ++ loggedUrls evs)).map Prod.fst := by
    intro evs permalinks prev hp hprev hnot
    refine mem_urls_to_process url permalinks _ hp ?_
    intro hc
    rcases List.mem_append.mp hc with hc | hc
    · exact hprev hc
    · exact hnot ((mem_loggedUrls evs url).mp hc)
  unfold process_url
  cases hf : fetchHtmlLoop htmlScript with
  | notFound =>
      simp only []
      exact ⟨by intro h; simp at h, fun _ => by simp,
        fun _ => by simp, fun permalinks prev hp hprev hnot => hrerun [] permalinks prev hp hprev hnot⟩
  | exhausted =>
      simp only []
      exact ⟨by intro h; simp at h, fun _ => by simp,
        fun _ => by simp, fun permalinks prev hp hprev hnot => hrerun [] permalinks prev hp hprev hnot⟩
  | ok html =>
      simp only []
      cases contentTags with
      | none =>
          simp only []
          constructor
          · intro _
            constructor
            · rw [List.getLast?_concat]
            · trivial
          · refine ⟨?_, ?_, ?_⟩
            · intro hc
              rcases hc with hc | hc <;> simp [hf] at hc
            · intro hc
              simp at hc
            · intro permalinks prev hp hprev hnot
              exact absurd (List.mem_append.mpr (Or.inr (by simp))) hnot
      | some tags =>
          simp only []
          by_cases hraised : (processMediaLoop url
              (osJoin "posts" (osSplitextRoot (generate_filename_from_url url postIndex))) 0 tags fs
              ⟨1, 0, 0⟩).2.2.2 = true
          · rw [if_pos hraised]
            have hnolog : PUEvent.loggedUrl url ∉
                ([PUEvent.wroteHtml (osJoin "posts"
                    (osSplitextRoot (generate_filename_from_url url postIndex) ++ ".html"))] ++
                  (match assetsAttempt with
                   | .ok _ => [PUEvent.wroteHtml (osJoin "posts"
                      (osSplitextRoot (generate_filename_from_url url postIndex) ++ ".html"))]
                   | .exn => []) ++
                  (processMediaLoop url
                    (osJoin "posts" (osSplitextRoot (generate_filename_from_url url postIndex))) 0 tags fs
                    ⟨1, 0, 0⟩).2.1) := by
              intro hc
              rcases List.mem_append.mp hc with hc | hc
              · exact ev1_no_log _ assetsAttempt url hc
              · exact processMediaLoop_no_log url _ tags 0 fs ⟨1, 0, 0⟩ url hc
            refine ⟨fun h => absurd h hnolog, fun _ => hnolog, fun _ => hnolog, ?_⟩
            intro permalinks prev hp hprev hnot
            exact hrerun _ permalinks prev hp hprev hnot
          · rw [if_neg hraised]
            constructor
            · intro _
              constructor
              · rw [List.append_assoc, List.getLast?_append, List.getLast?_concat]
                simp
              · trivial
            · refine ⟨?_, ?_, ?_⟩
              · intro hc
                rcases hc with hc | hc <;> simp [hf] at hc
              · intro hc
                simp at hc
              · intro permalinks prev hp hprev hnot
                exact absurd (List.mem_append.mpr (Or.inr (by simp))) hnot

/-- Witness for C2: a run whose media loop raises on its only tag does not
log the URL, and the URL is submitted again on the rerun. -/
theorem c2_write_after_success_witness :
    (PUEvent.loggedUrl "u" ∉ (process_url 0 "u"
        [Posts.Tried.ok ⟨200, "", [], "<html></html>"⟩] Tried.exn
        (some [(⟨"img", some "x", none⟩, ⟨true, [], []⟩)]) []).events) ∧
    "u" ∈ (urls_to_process ["u"]
        ([] ++ loggedUrls (process_url 0 "u"
          [Posts.Tried.ok ⟨200, "", [], "<html></html>"⟩] Tried.exn
          (some [(⟨"img", some "x", none⟩, ⟨true, [], []⟩)]) []).events)).map Prod.fst := by
  have h := c2_write_after_success 0 "u"
    [Posts.Tried.ok ⟨200, "", [], "<html></html>"⟩] Tried.exn
    (some [(⟨"img", some "x", none⟩, ⟨true, [], []⟩)]) []
  have hok : (process_url 0 "u"
      [Posts.Tried.ok ⟨200, "", [], "<html></html>"⟩] Tried.exn
      (some [(⟨"img", some "x", none⟩, ⟨true, [], []⟩)]) []).okRun = false := by decide
  have hnot := h.2.2.1 hok
  exact ⟨hnot, h.2.2.2 ["u"] [] (by simp) (by simp) hnot⟩

end Posts

/-! ### Claim C8: what a 404 means for a post and for a listing page -/

/-- C8 counterexample: a post whose fetch 404s on the first attempt is not
recorded in downloaded_permalinks.txt, so the next run's work list contains
it again — it is retried, contradicting "skipped permanently". -/
theorem c8_counterexample :
    (Posts.process_url 0 "u"
        [Posts.Tried.ok ⟨404, "", [], ""⟩, Posts.Tried.ok ⟨404, "", [], ""⟩,
         Posts.Tried.ok ⟨404, "", [], ""⟩] Posts.Tried.exn (some []) []).events = [] ∧
    Posts.urls_to_process ["u"]
        (Posts.loggedUrls (Posts.process_url 0 "u"
          [Posts.Tried.ok ⟨404, "", [], ""⟩, Posts.Tried.ok ⟨404, "", [], ""⟩,
           Posts.Tried.ok ⟨404, "", [], ""⟩] Posts.Tried.exn (some []) []).events)
      = [("u", 0)] := by
  decide

/-- C8 (amended).  A post whose fetch returns 404 is skipped for the
current run only: nothing is written and its URL is not appended to the
progress log, so a future run submits it again; for a listing page a 404
resolves the retry loop to the end-of-crawl marker and the crawl loop
terminates at once, scanning no further pages. -/
theorem c8_not_found :
    (∀ (postIndex : Nat) (url : String) (htmlScript : List (Posts.Tried Posts.HttpResp))
        (assetsAttempt : Posts.Tried String)
        (contentTags : Option (List (Posts.MediaTag × Posts.TagEnv))) (fs : List String),
      Posts.fetchHtmlLoop htmlScript = Posts.HtmlFetch.notFound →
      (Posts.process_url postIndex url htmlScript assetsAttempt contentTags fs).events = [] ∧
      (∀ permalinks prev, url ∈ permalinks → url ∉ prev →
        url ∈ (Posts.urls_to_process permalinks
          (prev ++ Posts.loggedUrls
            (Posts.process_url postIndex url htmlScript assetsAttempt contentTags fs).events)).map
          Prod.fst)) ∧
    (∀ (doc : Node) (rest : List (Posts.Tried (Nat × Node))),
      GetPages.fetchPageLoop (Posts.Tried.ok (404, doc) :: rest) = GetPages.PageOutcome.stopCrawl) ∧
    (∀ (fetch : Nat → GetPages.PageOutcome) (scanned : List Nat) (p fuel : Nat),
      p ∉ scanned → fetch p = GetPages.PageOutcome.stopCrawl →
      GetPages.crawlLoop fetch scanned p (fuel + 1) = []) := by
  refine ⟨?_, ?_, ?_⟩
  · intro postIndex url htmlScript assetsAttempt contentTags fs hf
    have hev : (Posts.process_url postIndex url htmlScript assetsAttempt contentTags fs).events = [] := by
      unfold Posts.process_url
      rw [hf]
    refine ⟨hev, ?_⟩
    intro permalinks prev hp hprev
    rw [hev]
    refine Posts.mem_urls_to_process url permalinks _ hp ?_
    intro hc
    rcases List.mem_append.mp hc with hc | hc
    · exact hprev hc
    · simp [Posts.loggedUrls] at hc
  · intro doc rest
    simp [GetPages.fetchPageLoop]
  · intro fetch scanned p fuel hscan hfetch
    unfold GetPages.crawlLoop
    rw [if_neg hscan, hfetch]

/-- Witness for C8: a 404'd post URL reappears in the next run's work
list, and a 404'd listing page ends the crawl with no page scanned. -/
theorem c8_not_found_witness :
    ((Posts.process_url 0 "u"
        [Posts.Tried.ok ⟨404, "", [], ""⟩, Posts.Tried.ok ⟨404, "", [], ""⟩,
         Posts.Tried.ok ⟨404, "", [], ""⟩] Posts.Tried.exn (some []) []).events = [] ∧
      "u" ∈ (Posts.urls_to_process ["u"]
        ([] ++ Posts.loggedUrls (Posts.process_url 0 "u"
          [Posts.Tried.ok ⟨404, "", [], ""⟩, Posts.Tried.ok ⟨404, "", [], ""⟩,
           Posts.Tried.ok ⟨404, "", [], ""⟩] Posts.Tried.exn (some []) []).events)).map Prod.fst) ∧
    GetPages.fetchPageLoop [Posts.Tried.ok (404, Node.text "x")] = GetPages.PageOutcome.stopCrawl ∧
    GetPages.crawlLoop (fun _ => GetPages.PageOutcome.stopCrawl) [] 1 5 = [] := by
  refine ⟨?_, ?_, ?_⟩
  · obtain ⟨hev, hre⟩ := c8_not_found.1 0 "u"
      [Posts.Tried.ok ⟨404, "", [], ""⟩, Posts.Tried.ok ⟨404, "", [], ""⟩,
       Posts.Tried.ok ⟨404, "", [], ""⟩] Posts.Tried.exn (some []) [] (by decide)
    exact ⟨hev, hre ["u"] [] (by simp) (by simp)⟩
  · exact c8_not_found.2.1 (Node.text "x") []
  · exact c8_not_found.2.2 (fun _ => GetPages.PageOutcome.stopCrawl) [] 1 4 (by simp) rfl

/-! ### Claim C5: next-page validation and the crawl guard -/

/-- C5.  `check_for_next_page` returns true exactly when the designated
pager anchor exists, its visible text (lowercased) contains "next" or "»",
and its href carries a trailing page number equal to the current page plus
one; in every other case — missing control, missing or empty href,
unparseable or mismatched page number — it returns false, and a false
answer makes the crawl loop stop at the current page. -/
theorem c5_next_page_guard :
    (∀ (doc : Node) (cur : Nat),
      GetPages.check_for_next_page doc cur = true ↔
        ∃ nm attrs cs, GetPages.selectNextLink doc = some (Node.elem nm attrs cs) ∧
          (strContains (strLower (Node.nodesTextStrip cs)) "next" = true ∨
           strContains (strLower (Node.nodesTextStrip cs)) "»" = true) ∧
          ∃ href, alookup attrs "href" = some href ∧ href ≠ "" ∧
            GetPages.parsePageNum href = some (cur + 1)) ∧
    (∀ (fetch : Nat → GetPages.PageOutcome) (scanned : List Nat) (p fuel : Nat) (doc : Node),
      p ∉ scanned → fetch p = GetPages.PageOutcome.content doc →
      GetPages.check_for_next_page doc p = false →
      GetPages.crawlLoop fetch scanned p (fuel + 1) = [p]) := by
  constructor
  · intro doc cur
    unfold GetPages.check_for_next_page
    cases hsel : GetPages.selectNextLink doc with
    | none => simp
    | some nl =>
        cases nl with
        | text s => simp
        | elem nm attrs cs =>
            simp only [Node.nodeTextStrip, Option.some.injEq, Node.elem.injEq]
            by_cases htext : strContains (strLower (Node.nodesTextStrip cs)) "next" = true ∨
                strContains (strLower (Node.nodesTextStrip cs)) "»" = true
            · rw [if_neg (not_not_intro htext)]
              cases hhref : alookup attrs "href" with
              | none =>
                  simp only [hhref]
                  constructor
                  · intro hc; exact absurd hc (by simp)
                  · rintro ⟨nm', attrs', cs', ⟨rfl, rfl, rfl⟩, _, href, hhref2, _⟩
                    rw [hhref] at hhref2
                    exact Option.noConfusion hhref2
              | some href =>
                  simp only [hhref]
                  by_cases hemp : href = ""
                  · rw [if_pos hemp]
                    constructor
                    · intro hc; exact absurd hc (by simp)
                    · rintro ⟨nm', attrs', cs', ⟨rfl, rfl, rfl⟩, _, href2, hhref2, hne, _⟩
                      rw [hhref] at hhref2
                      injection hhref2 with hhref2
                      exact (hne (hhref2 ▸ hemp)).elim
                  · rw [if_neg hemp]
                    cases hparse : GetPages.parsePageNum href with
                    | none =>
                        simp only [hparse]
                        constructor
                        · intro hc; exact absurd hc (by simp)
                        · rintro ⟨nm', attrs', cs', ⟨rfl, rfl, rfl⟩, _, href2, hhref2, _, hparse2⟩
                          rw [hhref] at hhref2
                          injection hhref2 with hhref2
                          subst hhref2
                          rw [hparse] at hparse2
                          exact Option.noConfusion hparse2
                    | some n =>
                        simp only [hparse]
                        constructor
                        · intro hc
                          have hn : n = cur + 1 := by simpa using hc
                          exact ⟨nm, attrs, cs, ⟨rfl, rfl, rfl⟩, htext, href, hhref,
                            hemp, by rw [hparse, hn]⟩
                        · rintro ⟨nm', attrs', cs', ⟨rfl, rfl, rfl⟩, _, href2, hhref2, _, hparse2⟩
                          rw [hhref] at hhref2
                          injection hhref2 with hhref2
                          subst hhref2
                          rw [hparse] at hparse2
                          injection hparse2 with hparse2
                          exact decide_eq_true hparse2
            · rw [if_pos htext]
              constructor
              · intro hc; exact Bool.noConfusion hc
              · rintro ⟨nm', attrs', cs', ⟨rfl, rfl, rfl⟩, htext2, _⟩
                exact absurd htext2 htext
  · intro fetch scanned p fuel doc hscan hfetch hchk
    unfold GetPages.crawlLoop
    rw [if_neg hscan, hfetch]
    simp [hchk]

/-- Witness for C5: a well-formed pager pointing at page 4 from page 3
validates; pointing at page 5 from page 3 fails and the crawl stops at
page 3. -/
theorem c5_next_page_guard_witness :
    GetPages.check_for_next_page
      (Node.elem "html" [] [Node.elem "div" [("class", "pager-inner")]
        [Node.elem "span" [("class", "pager-right")]
          [Node.elem "a" [("href", "https://b.example/blog/page/4/")] [Node.text "Next »"]]]]) 3
      = true ∧
    GetPages.crawlLoop
      (fun _ => GetPages.PageOutcome.content
        (Node.elem "html" [] [Node.elem "div" [("class", "pager-inner")]
          [Node.elem "span" [("class", "pager-right")]
            [Node.elem "a" [("href", "https://b.example/blog/page/5/")] [Node.text "Next »"]]]]))
      [] 3 7 = [3] := by
  constructor
  · exact (c5_next_page_guard.1 _ 3).mpr
      ⟨"a", [("href", "https://b.example/blog/page/4/")], [Node.text "Next »"], rfl,
        Or.inl (by decide), "https://b.example/blog/page/4/", rfl, by decide, by decide⟩
  · exact c5_next_page_guard.2 _ [] 3 6 _ (by simp) rfl rfl

/-! ### Claim C1: the perceptual-hash deduplication pass -/

namespace PrepareMedia

theorem hamming_self (a : PHash) : hamming a a = 0 := by
  induction a with
  | nil => rfl
  | cons x xs ih =>
      simp only [hamming, List.zip_cons_cons, List.countP_cons] at ih ⊢
      simpa using ih

theorem hamming_comm (a : PHash) : ∀ b : PHash, hamming a b = hamming b a := by
  induction a with
  | nil =>
      intro b
      cases b <;> simp [hamming]
  | cons x xs ih =>
      intro b
      cases b with
      | nil => simp [hamming]
      | cons y ys =>
          have h1 := ih ys
          simp only [hamming, List.zip_cons_cons, List.countP_cons, List.length_cons] at h1 ⊢
          have hxy : (x != y) = (y != x) := by cases x <;> cases y <;> rfl
          rw [hxy]
          omega

theorem hamming_eq_zero (a : PHash) : ∀ b : PHash, hamming a b = 0 → a = b := by
  induction a with
  | nil =>
      intro b h
      cases b with
      | nil => rfl
      | cons y ys => simp [hamming] at h
  | cons x xs ih =>
      intro b h
      cases b with
      | nil => simp [hamming] at h
      | cons y ys =>
          simp only [hamming, List.zip_cons_cons, List.countP_cons, List.length_cons] at h
          have hxy : (x != y) = false := by
            by_contra hc
            have hc2 : (x != y) = true := by simpa using hc
            rw [hc2, if_pos rfl] at h
            omega
          have hxy2 : x = y := by
            cases x <;> cases y <;> first | rfl | exact Bool.noConfusion hxy
          have hrest : hamming xs ys = 0 := by
            simp only [hamming]
            omega
          rw [hxy2, ih ys hrest]

theorem bestLoop_nil (h : PHash) (acc : Option Nat × Option PHash) :
    bestLoop h [] acc = acc := rfl

theorem bestLoop_cons_none (h e : PHash) (nm : String) (rest : List (PHash × String))
    (best : Option PHash) :
    bestLoop h ((e, nm) :: rest) (none, best) =
      bestLoop h rest (some (hamming h e), some e) := rfl

theorem bestLoop_cons_some (h e : PHash) (nm : String) (rest : List (PHash × String))
    (a : Nat) (best : Option PHash) :
    bestLoop h ((e, nm) :: rest) (some a, best) =
      (if hamming h e < a then bestLoop h rest (some (hamming h e), some e)
       else bestLoop h rest (some a, best)) := rfl

theorem bestLoop_acc_le (h : PHash) :
    ∀ (l : List (PHash × String)) (acc : Option Nat × Option PHash) (a d : Nat),
      acc.1 = some a → (bestLoop h l acc).1 = some d → d ≤ a := by
  intro l
  induction l with
  | nil =>
      intro acc a d hacc hres
      rw [bestLoop_nil] at hres
      rw [hacc] at hres
      injection hres with hres
      omega
  | cons p rest ih =>
      intro acc a d hacc hres
      obtain ⟨e, nm⟩ := p
      obtain ⟨lo, best⟩ := acc
      simp only at hacc
      subst hacc
      rw [bestLoop_cons_some] at hres
      by_cases hlt : hamming h e < a
      · rw [if_pos hlt] at hres
        have := ih (some (hamming h e), some e) (hamming h e) d rfl hres
        omega
      · rw [if_neg hlt] at hres
        exact ih (some a, best) a d rfl hres

theorem bestLoop_le (h : PHash) :
    ∀ (l : List (PHash × String)) (acc : Option Nat × Option PHash) (d : Nat),
      (bestLoop h l acc).1 = some d → ∀ x ∈ l, d ≤ hamming h x.1 := by
  intro l
  induction l with
  | nil =>
      intro acc d _ x hx
      simp at hx
  | cons p rest ih =>
      intro acc d hres x hx
      obtain ⟨e, nm⟩ := p
      obtain ⟨lo, best⟩ := acc
      rcases List.mem_cons.mp hx with rfl | hx2
      · cases lo with
        | none =>
            rw [bestLoop_cons_none] at hres
            show d ≤ hamming h e
            exact bestLoop_acc_le h rest (some (hamming h e), some e) (hamming h e) d rfl hres
        | some a =>
            rw [bestLoop_cons_some] at hres
            show d ≤ hamming h e
            by_cases hlt : hamming h e < a
            · rw [if_pos hlt] at hres
              exact bestLoop_acc_le h rest (some (hamming h e), some e) (hamming h e) d rfl hres
            · rw [if_neg hlt] at hres
              have hda := bestLoop_acc_le h rest (some a, best) a d rfl hres
              omega
      · cases lo with
        | none =>
            rw [bestLoop_cons_none] at hres
            exact ih (some (hamming h e), some e) d hres x hx2
        | some a =>
            rw [bestLoop_cons_some] at hres
            by_cases hlt : hamming h e < a
            · rw [if_pos hlt] at hres
              exact ih (some (hamming h e), some e) d hres x hx2
            · rw [if_neg hlt] at hres
              exact ih (some a, best) d hres x hx2

theorem bestLoop_isSome (h : PHash) :
    ∀ (l : List (PHash × String)) (acc : Option Nat × Option PHash),
      (acc.1.isSome ∨ l ≠ []) → ((bestLoop h l acc).1).isSome := by
  intro l
  induction l with
  | nil =>
      intro acc hc
      rw [bestLoop_nil]
      rcases hc with hc | hc
      · exact hc
      · exact absurd rfl hc
  | cons p rest ih =>
      intro acc _
      obtain ⟨e, nm⟩ := p
      obtain ⟨lo, best⟩ := acc
      cases lo with
      | none =>
          rw [bestLoop_cons_none]
          exact ih (some (hamming h e), some e) (Or.inl rfl)
      | some a =>
          rw [bestLoop_cons_some]
          by_cases hlt : hamming h e < a
          · rw [if_pos hlt]
            exact ih (some (hamming h e), some e) (Or.inl rfl)
          · rw [if_neg hlt]
            exact ih (some a, best) (Or.inl rfl)

theorem bestLoop_spec (h : PHash) :
    ∀ (l : List (PHash × String)) (acc : Option Nat × Option PHash),
      (acc = (none, none) ∨ ∃ d b, acc = (some d, some b) ∧ hamming h b = d) →
      (bestLoop h l acc = (none, none) ∨
        ∃ d b, bestLoop h l acc = (some d, some b) ∧ hamming h b = d ∧
          (b ∈ l.map Prod.fst ∨ acc.2 = some b)) := by
  intro l
  induction l with
  | nil =>
      intro acc hacc
      rw [bestLoop_nil]
      rcases hacc with rfl | ⟨d, b, rfl, hd⟩
      · exact Or.inl rfl
      · exact Or.inr ⟨d, b, rfl, hd, Or.inr rfl⟩
  | cons p rest ih =>
      intro acc hacc
      obtain ⟨e, nm⟩ := p
      obtain ⟨lo, best⟩ := acc
      have hnew : ∀ res, res = bestLoop h rest (some (hamming h e), some e) →
          (res = (none, none) ∨
            ∃ d b, res = (some d, some b) ∧ hamming h b = d ∧
              (b ∈ ((e, nm) :: rest).map Prod.fst ∨ (lo, best).2 = some b)) := by
        intro res hres
        subst hres
        rcases ih (some (hamming h e), some e) (Or.inr ⟨_, _, rfl, rfl⟩) with
          hx | ⟨d, b, hx, hd, hmem⟩
        · exact Or.inl hx
        · refine Or.inr ⟨d, b, hx, hd, Or.inl ?_⟩
          rcases hmem with hmem | hmem
          · exact List.mem_cons_of_mem _ hmem
          · injection hmem with hmem
            subst hmem
            exact List.mem_cons_self _ _
      cases lo with
      | none =>
          rw [bestLoop_cons_none]
          exact hnew _ rfl
      | some a =>
          rw [bestLoop_cons_some]
          by_cases hlt : hamming h e < a
          · rw [if_pos hlt]
            exact hnew _ rfl
          · rw [if_neg hlt]
            rcases hacc with heq | ⟨d0, b0, heq, hd0⟩
            · exact absurd heq (by simp)
            · obtain ⟨h1, h2⟩ := Prod.mk.inj heq
              have ha : a = d0 := Option.some.inj h1
              rcases ih (some a, best) (Or.inr ⟨a, b0, by rw [h2], by rw [ha]; exact hd0⟩) with
                hx | ⟨d, b, hx, hd, hmem⟩
              · exact Or.inl hx
              · refine Or.inr ⟨d, b, hx, hd, ?_⟩
                rcases hmem with hmem | hmem
                · exact Or.inl (List.mem_cons_of_mem _ hmem)
                · exact Or.inr hmem

theorem bestLoop_append (h : PHash) (l1 l2 : List (PHash × String))
    (acc : Option Nat × Option PHash) :
    bestLoop h (l1 ++ l2) acc = bestLoop h l2 (bestLoop h l1 acc) := by
  induction l1 generalizing acc with
  | nil => rw [bestLoop_nil]; rfl
  | cons p rest ih =>
      obtain ⟨e, nm⟩ := p
      obtain ⟨lo, best⟩ := acc
      rw [List.cons_append]
      cases lo with
      | none =>
          rw [bestLoop_cons_none, bestLoop_cons_none]
          exact ih _
      | some a =>
          rw [bestLoop_cons_some, bestLoop_cons_some]
          by_cases hlt : hamming h e < a
          · rw [if_pos hlt, if_pos hlt]
            exact ih _
          · rw [if_neg hlt, if_neg hlt]
            exact ih _

theorem bestLoop_single_acc (h g : PHash) (nf : String) (d : Nat) (b : PHash)
    (hle : ¬ hamming h g < d) :
    bestLoop h [(g, nf)] (some d, some b) = (some d, some b) := by
  rw [bestLoop_cons_some, if_neg hle, bestLoop_nil]

theorem prepCopy_eq (env : PrepEnv) (s : PrepState) (f : MediaFile) (hashOpt : Option PHash) :
    prepCopy env s f hashOpt = { s with
      fsNames := s.fsNames ++ [(prepNewName env s f).1],
      fileMap := mapInsert s.fileMap f.path (prepNewName env s f).1,
      copies := s.copies ++ [(f.path, (prepNewName env s f).1)],
      processedHashes :=
        (match hashOpt with
         | some h => s.processedHashes ++ [(h, (prepNewName env s f).1)]
         | none => s.processedHashes),
      uuidCount := (prepNewName env s f).2 } := by
  unfold prepCopy
  rcases hnn : prepNewName env s f with ⟨nf, uc⟩
  rfl

theorem prepStep_not_image (env : PrepEnv) (s : PrepState) (f : MediaFile)
    (himg : ¬ strStarts (env.mimeOf f.content) "image/" = true) :
    prepStep env s f = prepCopy env s f none := by
  unfold prepStep
  rw [if_neg himg]

theorem prepStep_phash_error (env : PrepEnv) (s : PrepState) (f : MediaFile) (msg : String)
    (himg : strStarts (env.mimeOf f.content) "image/" = true)
    (hph : env.phashOf f.content = Except.error msg) :
    prepStep env s f = { s with warnings := s.warnings ++ [f.path] } := by
  unfold prepStep
  rw [if_pos himg, hph]

theorem prepStep_dedup (env : PrepEnv) (s : PrepState) (f : MediaFile) (h : PHash)
    (d : Nat) (b : PHash) (F : String)
    (himg : strStarts (env.mimeOf f.content) "image/" = true)
    (hph : env.phashOf f.content = Except.ok h)
    (hbl : bestLoop h s.processedHashes (none, none) = (some d, some b))
    (hd : d < HASH_DIFFERENCE_THRESHOLD)
    (hF : alookup s.processedHashes b = some F) :
    prepStep env s f = { s with fileMap := mapInsert s.fileMap f.path F } := by
  unfold prepStep
  rw [if_pos himg, hph]
  dsimp only
  rw [hbl]
  dsimp only
  rw [if_pos (decide_eq_true hd)]
  simp only [Option.some_bind]
  rw [hF]

theorem prepStep_nodup_copy (env : PrepEnv) (s : PrepState) (f : MediaFile) (h : PHash)
    (himg : strStarts (env.mimeOf f.content) "image/" = true)
    (hph : env.phashOf f.content = Except.ok h)
    (hnd : ∀ d, (bestLoop h s.processedHashes (none, none)).1 = some d →
      ¬ d < HASH_DIFFERENCE_THRESHOLD) :
    prepStep env s f = prepCopy env s f (some h) := by
  unfold prepStep
  rw [if_pos himg, hph]
  dsimp only
  rcases hbl : bestLoop h s.processedHashes (none, none) with ⟨lo, best⟩
  dsimp only
  cases lo with
  | none => rw [if_neg (by simp)]
  | some d =>
      have hge := hnd d (by rw [hbl])
      rw [if_neg (by simpa using hge)]

theorem not_dup_all_far (h : PHash) (l : List (PHash × String))
    (hnd : ∀ d, (bestLoop h l (none, none)).1 = some d → ¬ d < HASH_DIFFERENCE_THRESHOLD) :
    ∀ x ∈ l, 2 ≤ hamming h x.1 := by
  intro x hx
  have hsome := bestLoop_isSome h l (none, none)
    (Or.inr (by intro hc; subst hc; simp at hx))
  obtain ⟨d, hd⟩ := Option.isSome_iff_exists.mp hsome
  have hle := bestLoop_le h l (none, none) d hd x hx
  have hge := hnd d hd
  unfold HASH_DIFFERENCE_THRESHOLD at hge
  omega

theorem not_dup_not_mem (h : PHash) (l : List (PHash × String))
    (hnd : ∀ d, (bestLoop h l (none, none)).1 = some d → ¬ d < HASH_DIFFERENCE_THRESHOLD) :
    alookup l h = none := by
  cases halk : alookup l h with
  | none => rfl
  | some v =>
      have hm := alookup_mem _ _ _ halk
      have hfar := not_dup_all_far h l hnd (h, v) hm
      have hself : hamming h (h, v).1 = 0 := hamming_self h
      omega

theorem prepStep_fileMap_other (env : PrepEnv) (s : PrepState) (f : MediaFile) (p : String)
    (hne : f.path ≠ p) :
    alookup (prepStep env s f).fileMap p = alookup s.fileMap p := by
  by_cases himg : strStarts (env.mimeOf f.content) "image/" = true
  · cases hph : env.phashOf f.content with
    | error m =>
        rw [prepStep_phash_error env s f m himg hph]
    | ok h =>
        rcases hbl : bestLoop h s.processedHashes (none, none) with ⟨lo, best⟩
        cases lo with
        | none =>
            rw [prepStep_nodup_copy env s f h himg hph
              (by intro d hd; rw [hbl] at hd; exact absurd hd (by simp))]
            rw [prepCopy_eq]
            exact alookup_mapInsert_ne _ _ _ _ hne
        | some d =>
            by_cases hd : d < HASH_DIFFERENCE_THRESHOLD
            · have hsome : best.isSome := by
                rcases bestLoop_spec h s.processedHashes (none, none) (Or.inl rfl) with
                  hx | ⟨d2, b2, hx, _, _⟩
                · rw [hx] at hbl
                  injection hbl with h1 h2
                  exact Option.noConfusion h1
                · rw [hx] at hbl
                  obtain ⟨h1, h2⟩ := Prod.mk.inj hbl
                  rw [← h2]
                  rfl
              obtain ⟨b, hb⟩ := Option.isSome_iff_exists.mp hsome
              subst hb
              have hmem : b ∈ s.processedHashes.map Prod.fst := by
                rcases bestLoop_spec h s.processedHashes (none, none) (Or.inl rfl) with
                  hx | ⟨d2, b2, hx, _, hmem2⟩
                · rw [hx] at hbl
                  injection hbl with h1 h2
                  exact Option.noConfusion h1
                · rw [hx] at hbl
                  obtain ⟨h1, h2⟩ := Prod.mk.inj hbl
                  rcases hmem2 with hmem2 | hmem2
                  · rw [← Option.some.inj h2]
                    exact hmem2
                  · exact Option.noConfusion hmem2
              obtain ⟨F, hF⟩ := Option.isSome_iff_exists.mp
                (alookup_isSome_of_mem s.processedHashes b hmem)
              rw [prepStep_dedup env s f h d b F himg hph hbl hd hF]
              exact alookup_mapInsert_ne _ _ _ _ hne
            · rw [prepStep_nodup_copy env s f h himg hph
                (by intro d2 hd2; rw [hbl] at hd2; injection hd2 with hd2; exact hd2 ▸ hd)]
              rw [prepCopy_eq]
              exact alookup_mapInsert_ne _ _ _ _ hne
  · rw [prepStep_not_image env s f himg, prepCopy_eq]
    exact alookup_mapInsert_ne _ _ _ _ hne

theorem prepStep_hashes_shape (env : PrepEnv) (s : PrepState) (f : MediaFile) :
    (prepStep env s f).processedHashes = s.processedHashes ∨
    ∃ g nf, (prepStep env s f).processedHashes = s.processedHashes ++ [(g, nf)] ∧
      ∀ x ∈ s.processedHashes, 2 ≤ hamming g x.1 := by
  by_cases himg : strStarts (env.mimeOf f.content) "image/" = true
  · cases hph : env.phashOf f.content with
    | error m =>
        rw [prepStep_phash_error env s f m himg hph]
        exact Or.inl rfl
    | ok h =>
        rcases hbl : bestLoop h s.processedHashes (none, none) with ⟨lo, best⟩
        cases lo with
        | none =>
            have hnd : ∀ d, (bestLoop h s.processedHashes (none, none)).1 = some d →
                ¬ d < HASH_DIFFERENCE_THRESHOLD := by
              intro d hd
              rw [hbl] at hd
              exact absurd hd (by simp)
            rw [prepStep_nodup_copy env s f h himg hph hnd, prepCopy_eq]
            exact Or.inr ⟨h, (prepNewName env s f).1, rfl, not_dup_all_far h _ hnd⟩
        | some d =>
            by_cases hd : d < HASH_DIFFERENCE_THRESHOLD
            · have hsome : best.isSome := by
                rcases bestLoop_spec h s.processedHashes (none, none) (Or.inl rfl) with
                  hx | ⟨d2, b2, hx, _, _⟩
                · rw [hx] at hbl
                  injection hbl with h1 h2
                  exact Option.noConfusion h1
                · rw [hx] at hbl
                  obtain ⟨h1, h2⟩ := Prod.mk.inj hbl
                  rw [← h2]
                  rfl
              obtain ⟨b, hb⟩ := Option.isSome_iff_exists.mp hsome
              subst hb
              have hmem : b ∈ s.processedHashes.map Prod.fst := by
                rcases bestLoop_spec h s.processedHashes (none, none) (Or.inl rfl) with
                  hx | ⟨d2, b2, hx, _, hmem2⟩
                · rw [hx] at hbl
                  injection hbl with h1 h2
                  exact Option.noConfusion h1
                · rw [hx] at hbl
                  obtain ⟨h1, h2⟩ := Prod.mk.inj hbl
                  rcases hmem2 with hmem2 | hmem2
                  · rw [← Option.some.inj h2]
                    exact hmem2
                  · exact Option.noConfusion hmem2
              obtain ⟨F, hF⟩ := Option.isSome_iff_exists.mp
                (alookup_isSome_of_mem s.processedHashes b hmem)
              rw [prepStep_dedup env s f h d b F himg hph hbl hd hF]
              exact Or.inl rfl
            · have hnd : ∀ d2, (bestLoop h s.processedHashes (none, none)).1 = some d2 →
                  ¬ d2 < HASH_DIFFERENCE_THRESHOLD := by
                intro d2 hd2
                rw [hbl] at hd2
                injection hd2 with hd2
                exact hd2 ▸ hd
              rw [prepStep_nodup_copy env s f h himg hph hnd, prepCopy_eq]
              exact Or.inr ⟨h, (prepNewName env s f).1, rfl, not_dup_all_far h _ hnd⟩
  · rw [prepStep_not_image env s f himg, prepCopy_eq]
    exact Or.inl rfl

theorem prepRun_cons (env : PrepEnv) (f : MediaFile) (rest : List MediaFile) (s : PrepState) :
    prepRun env (f :: rest) s = prepRun env rest (prepStep env s f) := rfl

theorem prepRun_append (env : PrepEnv) (l1 l2 : List MediaFile) :
    ∀ s, prepRun env (l1 ++ l2) s = prepRun env l2 (prepRun env l1 s) := by
  induction l1 with
  | nil => intro s; rfl
  | cons f rest ih => intro s; rw [List.cons_append, prepRun_cons, prepRun_cons]; exact ih _

theorem prepRun_fileMap_other (env : PrepEnv) (files : List MediaFile) (p : String)
    (hall : ∀ f ∈ files, f.path ≠ p) :
    ∀ s, alookup (prepRun env files s).fileMap p = alookup s.fileMap p := by
  induction files with
  | nil => intro s; rfl
  | cons f rest ih =>
      intro s
      rw [prepRun_cons, ih (fun g hg => hall g (List.mem_cons_of_mem _ hg))]
      exact prepStep_fileMap_other env s f p (hall f (List.mem_cons_self _ _))

theorem dedup_target_preserved (h : PHash) (l : List (PHash × String)) (g : PHash)
    (nf F : String) (d : Nat) (b : PHash)
    (hbl : bestLoop h l (none, none) = (some d, some b))
    (hd : d < HASH_DIFFERENCE_THRESHOLD) (hhb : hamming h b = d)
    (hF : alookup l b = some F)
    (hfar : ∀ x ∈ l, 2 ≤ hamming g x.1) :
    bestLoop h (l ++ [(g, nf)]) (none, none) = (some d, some b) ∧
    alookup (l ++ [(g, nf)]) b = some F := by
  have hmemb : (b, F) ∈ l := alookup_mem _ _ _ hF
  have hgb : 2 ≤ hamming g b := hfar (b, F) hmemb
  have hnot : ¬ hamming h g < d := by
    intro hlt
    unfold HASH_DIFFERENCE_THRESHOLD at hd
    have hd2 : d = 1 := by omega
    subst hd2
    have h0 : hamming h g = 0 := by omega
    have hg : h = g := hamming_eq_zero h g h0
    subst hg
    omega
  constructor
  · rw [bestLoop_append, hbl]
    exact bestLoop_single_acc h g nf d b hnot
  · rw [alookup_append, hF]

theorem bestLoop_self_after_copy (h : PHash) (l : List (PHash × String)) (nf : String)
    (hnd : ∀ d, (bestLoop h l (none, none)).1 = some d → ¬ d < HASH_DIFFERENCE_THRESHOLD) :
    bestLoop h (l ++ [(h, nf)]) (none, none) = (some 0, some h) := by
  rw [bestLoop_append]
  rcases hbl : bestLoop h l (none, none) with ⟨lo, best⟩
  cases lo with
  | none =>
      by_cases hl : l = []
      · subst hl
        rw [bestLoop_nil] at hbl
        obtain ⟨h1, h2⟩ := Prod.mk.inj hbl
        rw [← h2, bestLoop_cons_none, bestLoop_nil, hamming_self]
      · have hsome := bestLoop_isSome h l (none, none) (Or.inr hl)
        rw [hbl] at hsome
        exact absurd hsome (by simp)
  | some a =>
      have ha := hnd a (by rw [hbl])
      unfold HASH_DIFFERENCE_THRESHOLD at ha
      rw [bestLoop_cons_some, hamming_self, if_pos (by omega), bestLoop_nil]

theorem Q_step (env : PrepEnv) (s : PrepState) (f : MediaFile) (upath : String)
    (h : PHash) (F : String) (hne : f.path ≠ upath)
    (hq1 : ∃ d b, bestLoop h s.processedHashes (none, none) = (some d, some b) ∧
        d < HASH_DIFFERENCE_THRESHOLD ∧ hamming h b = d ∧
        alookup s.processedHashes b = some F)
    (hq2 : alookup s.fileMap upath = some F) :
    (∃ d b, bestLoop h (prepStep env s f).processedHashes (none, none) = (some d, some b) ∧
        d < HASH_DIFFERENCE_THRESHOLD ∧ hamming h b = d ∧
        alookup (prepStep env s f).processedHashes b = some F) ∧
    alookup (prepStep env s f).fileMap upath = some F := by
  obtain ⟨d, b, hbl, hd, hhb, hF⟩ := hq1
  constructor
  · rcases prepStep_hashes_shape env s f with hsh | ⟨g, nf, hsh, hfar⟩
    · rw [hsh]
      exact ⟨d, b, hbl, hd, hhb, hF⟩
    · rw [hsh]
      obtain ⟨h1, h2⟩ := dedup_target_preserved h s.processedHashes g nf F d b hbl hd hhb hF hfar
      exact ⟨d, b, h1, hd, hhb, h2⟩
  · rw [prepStep_fileMap_other env s f upath hne]
    exact hq2

theorem Q_run (env : PrepEnv) (files : List MediaFile) (upath : String)
    (h : PHash) (F : String) (hall : ∀ f ∈ files, f.path ≠ upath) :
    ∀ s,
      (∃ d b, bestLoop h s.processedHashes (none, none) = (some d, some b) ∧
          d < HASH_DIFFERENCE_THRESHOLD ∧ hamming h b = d ∧
          alookup s.processedHashes b = some F) →
      alookup s.fileMap upath = some F →
      (∃ d b, bestLoop h (prepRun env files s).processedHashes (none, none) = (some d, some b) ∧
          d < HASH_DIFFERENCE_THRESHOLD ∧ hamming h b = d ∧
          alookup (prepRun env files s).processedHashes b = some F) ∧
      alookup (prepRun env files s).fileMap upath = some F := by
  induction files with
  | nil => intro s hq1 hq2; exact ⟨hq1, hq2⟩
  | cons f rest ih =>
      intro s hq1 hq2
      rw [prepRun_cons]
      obtain ⟨hq1s, hq2s⟩ := Q_step env s f upath h F (hall f (List.mem_cons_self _ _)) hq1 hq2
      exact ih (fun g hg => hall g (List.mem_cons_of_mem _ hg)) _ hq1s hq2s

theorem Q_establish (env : PrepEnv) (s : PrepState) (u : MediaFile) (h : PHash)
    (himg : strStarts (env.mimeOf u.content) "image/" = true)
    (hph : env.phashOf u.content = Except.ok h) :
    ∃ F,
      (∃ d b, bestLoop h (prepStep env s u).processedHashes (none, none) = (some d, some b) ∧
          d < HASH_DIFFERENCE_THRESHOLD ∧ hamming h b = d ∧
          alookup (prepStep env s u).processedHashes b = some F) ∧
      alookup (prepStep env s u).fileMap u.path = some F := by
  by_cases hdup : ∃ d, (bestLoop h s.processedHashes (none, none)).1 = some d ∧
      d < HASH_DIFFERENCE_THRESHOLD
  · obtain ⟨d, hd1, hd2⟩ := hdup
    rcases bestLoop_spec h s.processedHashes (none, none) (Or.inl rfl) with
      hx | ⟨d2, b, hx, hhb, hmem⟩
    · rw [hx] at hd1
      exact absurd hd1 (by simp)
    · rw [hx] at hd1
      injection hd1 with hd1
      subst hd1
      have hmem2 : b ∈ s.processedHashes.map Prod.fst := by
        rcases hmem with hmem | hmem
        · exact hmem
        · exact absurd hmem (by simp)
      obtain ⟨F, hF⟩ := Option.isSome_iff_exists.mp
        (alookup_isSome_of_mem s.processedHashes b hmem2)
      have hstep := prepStep_dedup env s u h d2 b F himg hph hx hd2 hF
      refine ⟨F, ⟨d2, b, ?_, hd2, hhb, ?_⟩, ?_⟩
      · rw [hstep]
        exact hx
      · rw [hstep]
        exact hF
      · rw [hstep]
        exact alookup_mapInsert_self _ _ _
  · have hnd : ∀ d, (bestLoop h s.processedHashes (none, none)).1 = some d →
        ¬ d < HASH_DIFFERENCE_THRESHOLD := by
      intro d hd hlt
      exact hdup ⟨d, hd, hlt⟩
    have hstep := prepStep_nodup_copy env s u h himg hph hnd
    refine ⟨(prepNewName env s u).1, ⟨0, h, ?_, by decide, hamming_self h, ?_⟩, ?_⟩
    · rw [hstep, prepCopy_eq]
      exact bestLoop_self_after_copy h s.processedHashes (prepNewName env s u).1 hnd
    · rw [hstep, prepCopy_eq]
      show alookup (s.processedHashes ++ [(h, (prepNewName env s u).1)]) h =
        some (prepNewName env s u).1
      rw [alookup_append, not_dup_not_mem h s.processedHashes hnd]
      simp [alookup]
    · rw [hstep, prepCopy_eq]
      exact alookup_mapInsert_self _ _ _

/-- C1: In the deduplication pass of 03_prepare_media.py `main`, for every
image file processed: (1) its perceptual fingerprint is compared against every
previously registered fingerprint and the tracked lowest difference is the
minimum distance — it is attained by some registered hash and is a lower bound
for all of them; (2) if that minimum is strictly below
HASH_DIFFERENCE_THRESHOLD = 2 the file is mapped in file_map to the canonical
filename of the best-matching previously accepted image and no new file is
copied (copies, media filenames and registered hashes are unchanged); (3)
otherwise the file is copied into the canonical media store under a new
filename distinct from every existing one (the uuid4-uniquified name being
fresh) and its fingerprint is registered under that name; (4) consequently two
byte-identical images processed in the same run (distance 0) are mapped to the
same canonical filename. -/
theorem c1 (env : PrepEnv) :
    (∀ (s : PrepState) (f : MediaFile) (h : PHash) (d : Nat),
        strStarts (env.mimeOf f.content) "image/" = true →
        env.phashOf f.content = Except.ok h →
        (bestLoop h s.processedHashes (none, none)).1 = some d →
        (∃ x ∈ s.processedHashes, hamming h x.1 = d) ∧
        (∀ x ∈ s.processedHashes, d ≤ hamming h x.1)) ∧
    (∀ (s : PrepState) (f : MediaFile) (h : PHash) (d : Nat) (b : PHash) (F : String),
        strStarts (env.mimeOf f.content) "image/" = true →
        env.phashOf f.content = Except.ok h →
        bestLoop h s.processedHashes (none, none) = (some d, some b) →
        d < HASH_DIFFERENCE_THRESHOLD →
        alookup s.processedHashes b = some F →
        alookup (prepStep env s f).fileMap f.path = some F ∧
        (prepStep env s f).copies = s.copies ∧
        (prepStep env s f).fsNames = s.fsNames ∧
        (prepStep env s f).processedHashes = s.processedHashes) ∧
    (∀ (s : PrepState) (f : MediaFile) (h : PHash),
        strStarts (env.mimeOf f.content) "image/" = true →
        env.phashOf f.content = Except.ok h →
        (∀ d, (bestLoop h s.processedHashes (none, none)).1 = some d →
          ¬ d < HASH_DIFFERENCE_THRESHOLD) →
        (prepNewName env s f).1 ∉ s.fsNames →
        (prepStep env s f).fsNames = s.fsNames ++ [(prepNewName env s f).1] ∧
        alookup (prepStep env s f).fileMap f.path = some (prepNewName env s f).1 ∧
        (prepStep env s f).processedHashes =
          s.processedHashes ++ [(h, (prepNewName env s f).1)] ∧
        (prepStep env s f).copies = s.copies ++ [(f.path, (prepNewName env s f).1)]) ∧
    (∀ (s0 : PrepState) (pre mid post : List MediaFile) (u v : MediaFile) (h : PHash),
        u.content = v.content →
        strStarts (env.mimeOf u.content) "image/" = true →
        env.phashOf u.content = Except.ok h →
        v.path ≠ u.path →
        (∀ f ∈ mid, f.path ≠ u.path) →
        (∀ f ∈ post, f.path ≠ u.path ∧ f.path ≠ v.path) →
        ∃ F,
          alookup (prepRun env (pre ++ u :: mid ++ v :: post) s0).fileMap u.path
            = some F ∧
          alookup (prepRun env (pre ++ u :: mid ++ v :: post) s0).fileMap v.path
            = some F) := by
  refine ⟨?_, ?_, ?_, ?_⟩
  · intro s f h d _ _ hd
    constructor
    · rcases bestLoop_spec h s.processedHashes (none, none) (Or.inl rfl) with
        hx | ⟨d2, b, hx, hhb, hmem⟩
      · rw [hx] at hd
        exact absurd hd (by simp)
      · rw [hx] at hd
        have hd2 : some d2 = some d := hd
        have hdd : d2 = d := Option.some.inj hd2
        subst hdd
        have hb : b ∈ s.processedHashes.map Prod.fst := by
          rcases hmem with hm | hm
          · exact hm
          · exact absurd hm (by simp)
        obtain ⟨x, hxmem, hxb⟩ := List.mem_map.mp hb
        exact ⟨x, hxmem, by rw [hxb]; exact hhb⟩
    · intro x hx
      exact bestLoop_le h s.processedHashes (none, none) d hd x hx
  · intro s f h d b F himg hph hbl hd hF
    have hstep := prepStep_dedup env s f h d b F himg hph hbl hd hF
    rw [hstep]
    exact ⟨alookup_mapInsert_self _ _ _, rfl, rfl, rfl⟩
  · intro s f h himg hph hnd _
    have hstep := prepStep_nodup_copy env s f h himg hph hnd
    rw [hstep, prepCopy_eq]
    exact ⟨rfl, alookup_mapInsert_self _ _ _, rfl, rfl⟩
  · intro s0 pre mid post u v h hcv himg hph hvu hmid hpost
    obtain ⟨F, hq1, hq2⟩ := Q_establish env (prepRun env pre s0) u h himg hph
    obtain ⟨hq1m, hq2m⟩ := Q_run env mid u.path h F hmid
      (prepStep env (prepRun env pre s0) u) hq1 hq2
    obtain ⟨d, b, hbl, hd, hhb, hFb⟩ := hq1m
    have himgv : strStarts (env.mimeOf v.content) "image/" = true := by
      rw [← hcv]; exact himg
    have hphv : env.phashOf v.content = Except.ok h := by
      rw [← hcv]; exact hph
    have hstepv := prepStep_dedup env
      (prepRun env mid (prepStep env (prepRun env pre s0) u)) v h d b F
      himgv hphv hbl hd hFb
    have hrw : prepRun env (pre ++ u :: mid ++ v :: post) s0 =
        prepRun env post (prepStep env
          (prepRun env mid (prepStep env (prepRun env pre s0) u)) v) := by
      rw [prepRun_append, prepRun_cons, prepRun_append, prepRun_cons]
    refine ⟨F, ?_, ?_⟩
    · rw [hrw, prepRun_fileMap_other env post u.path (fun g hg => (hpost g hg).1)]
      rw [prepStep_fileMap_other env _ v u.path hvu]
      exact hq2m
    · rw [hrw, prepRun_fileMap_other env post v.path (fun g hg => (hpost g hg).2)]
      rw [hstepv]
      exact alookup_mapInsert_self _ _ _

theorem c1_witness :
    ∃ F,
      alookup (prepRun
        ⟨fun _ => "image/png",
         fun c => Except.ok (c.data.map (fun ch => ch == '1')),
         fun n => toString n⟩
        ([] ++ ⟨"posts/a/x.jpg", "11"⟩ :: [] ++ ⟨"posts/b/x.jpg", "11"⟩ :: [])
        initState).fileMap "posts/a/x.jpg" = some F ∧
      alookup (prepRun
        ⟨fun _ => "image/png",
         fun c => Except.ok (c.data.map (fun ch => ch == '1')),
         fun n => toString n⟩
        ([] ++ ⟨"posts/a/x.jpg", "11"⟩ :: [] ++ ⟨"posts/b/x.jpg", "11"⟩ :: [])
        initState).fileMap "posts/b/x.jpg" = some F :=
  (c1 ⟨fun _ => "image/png",
       fun c => Except.ok (c.data.map (fun ch => ch == '1')),
       fun n => toString n⟩).2.2.2
    initState [] [] [] ⟨"posts/a/x.jpg", "11"⟩ ⟨"posts/b/x.jpg", "11"⟩
    [true, true] rfl (by decide) rfl (by decide)
    (by intro g hg; exact absurd hg (List.not_mem_nil g))
    (by intro g hg; exact absurd hg (List.not_mem_nil g))

end PrepareMedia

/-! ### Claim C3: the content rewriter is not idempotent -/

set_option maxRecDepth 40000 in
/-- C3 counterexample: `process_content` is not idempotent.  With the lookup
maps built from the file map `posts/my-post/img.jpg ↦ a.txt`,
`posts/x/a.txt ↦ b.txt`, the first application rewrites
`<img src="img.jpg">` (slug `my-post`) to the WP_MEDIA_PATH reference to
`a.txt`; the second application resolves that rewritten reference again —
its bare stem `a` hits `basename_map` — and rewrites it to `b.txt`, so the
second application changes the output of the first. -/
theorem c3_counterexample :
    Wordpress.process_content
        (Wordpress.process_content
          (Node.elem "body" [] [Node.elem "img" [("src", "img.jpg")] []])
          (Wordpress.buildLookupMaps
            [("posts/my-post/img.jpg", "a.txt"), ("posts/x/a.txt", "b.txt")]).1
          (Wordpress.buildLookupMaps
            [("posts/my-post/img.jpg", "a.txt"), ("posts/x/a.txt", "b.txt")]).2
          "my-post" none false false false)
        (Wordpress.buildLookupMaps
          [("posts/my-post/img.jpg", "a.txt"), ("posts/x/a.txt", "b.txt")]).1
        (Wordpress.buildLookupMaps
          [("posts/my-post/img.jpg", "a.txt"), ("posts/x/a.txt", "b.txt")]).2
        "my-post" none false false false ≠
      Wordpress.process_content
        (Node.elem "body" [] [Node.elem "img" [("src", "img.jpg")] []])
        (Wordpress.buildLookupMaps
          [("posts/my-post/img.jpg", "a.txt"), ("posts/x/a.txt", "b.txt")]).1
        (Wordpress.buildLookupMaps
          [("posts/my-post/img.jpg", "a.txt"), ("posts/x/a.txt", "b.txt")]).2
        "my-post" none false false false := by
  intro h
  have h2 := congrArg
    (fun n => match n with
      | Node.elem _ _ (Node.elem _ a _ :: _) => alookup a "src"
      | _ => none) h
  exact absurd h2 (by decide)

/-- C3 (amended).  The content rewriter is not idempotent in general: the
media-reference rewrite resolves an already-rewritten reference again.  For
an `img` whose `src` resolves through the maps to a nonempty canonical name
`f` (and with no inline style), the pass rewrites the src to
`WP_MEDIA_PATH ++ f`; on a second application, if that rewritten reference
itself resolves to a nonempty `g`, the src is rewritten again to
`WP_MEDIA_PATH ++ g`, and the single-tag rewrite is a no-op on its own
output exactly when the rewritten reference no longer resolves. -/
theorem c3_rewrite_reresolution (env : Wordpress.REnv)
    (attrs : List (String × String)) (s f : String)
    (hsrc : alookup attrs "src" = some s)
    (hstyle : alookup attrs "style" = none)
    (hf : Wordpress.find_file_in_map s env.localFileSlug env.stemMap env.basenameMap
      = some f)
    (hf0 : f ≠ "") :
    Wordpress.imgAttrsStep env attrs
      = mapInsert attrs "src" (Wordpress.WP_MEDIA_PATH ++ f) ∧
    (∀ g, Wordpress.find_file_in_map (Wordpress.WP_MEDIA_PATH ++ f)
          env.localFileSlug env.stemMap env.basenameMap = some g → g ≠ "" →
        alookup (Wordpress.imgAttrsStep env (Wordpress.imgAttrsStep env attrs)) "src"
          = some (Wordpress.WP_MEDIA_PATH ++ g)) ∧
    (Wordpress.find_file_in_map (Wordpress.WP_MEDIA_PATH ++ f)
          env.localFileSlug env.stemMap env.basenameMap = none →
        Wordpress.imgAttrsStep env (Wordpress.imgAttrsStep env attrs)
          = Wordpress.imgAttrsStep env attrs) := by
  have hstep1 : Wordpress.imgAttrsStep env attrs
      = mapInsert attrs "src" (Wordpress.WP_MEDIA_PATH ++ f) := by
    unfold Wordpress.imgAttrsStep
    dsimp only
    rw [hsrc]
    simp only [Option.getD_some]
    rw [hf]
    dsimp only
    rw [if_neg hf0]
    rw [alookup_mapInsert_ne attrs "src" "style" (Wordpress.WP_MEDIA_PATH ++ f) (by decide)]
    rw [hstyle]
  have hsrc2 : alookup (mapInsert attrs "src" (Wordpress.WP_MEDIA_PATH ++ f)) "src"
      = some (Wordpress.WP_MEDIA_PATH ++ f) := alookup_mapInsert_self _ _ _
  have hstyle2 : alookup (mapInsert attrs "src" (Wordpress.WP_MEDIA_PATH ++ f)) "style"
      = none := by
    rw [alookup_mapInsert_ne attrs "src" "style" (Wordpress.WP_MEDIA_PATH ++ f) (by decide)]
    exact hstyle
  refine ⟨hstep1, ?_, ?_⟩
  · intro g hg hg0
    rw [hstep1]
    have hstep2 : Wordpress.imgAttrsStep env
        (mapInsert attrs "src" (Wordpress.WP_MEDIA_PATH ++ f))
        = mapInsert (mapInsert attrs "src" (Wordpress.WP_MEDIA_PATH ++ f)) "src"
            (Wordpress.WP_MEDIA_PATH ++ g) := by
      unfold Wordpress.imgAttrsStep
      dsimp only
      rw [hsrc2]
      simp only [Option.getD_some]
      rw [hg]
      dsimp only
      rw [if_neg hg0]
      rw [alookup_mapInsert_ne _ "src" "style" (Wordpress.WP_MEDIA_PATH ++ g) (by decide)]
      rw [hstyle2]
    rw [hstep2]
    exact alookup_mapInsert_self _ _ _
  · intro hnone
    rw [hstep1]
    unfold Wordpress.imgAttrsStep
    dsimp only
    rw [hsrc2]
    simp only [Option.getD_some]
    rw [hnone]
    dsimp only
    rw [hstyle2]

set_option maxRecDepth 40000 in
/-- Witness for C3 (amended): at the counterexample's maps the first rewrite
sends `img.jpg` to the `a.txt` reference and the second rewrite sends that
reference on to `b.txt`. -/
theorem c3_rewrite_reresolution_witness :
    alookup (Wordpress.imgAttrsStep
        ⟨[("posts/my-post/img", "a.txt"), ("posts/x/a", "b.txt")],
         [("img", "a.txt"), ("a", "b.txt")], "my-post", none, false⟩
        (Wordpress.imgAttrsStep
          ⟨[("posts/my-post/img", "a.txt"), ("posts/x/a", "b.txt")],
           [("img", "a.txt"), ("a", "b.txt")], "my-post", none, false⟩
          [("src", "img.jpg")])) "src"
      = some (Wordpress.WP_MEDIA_PATH ++ "b.txt") := by
  exact (c3_rewrite_reresolution
      ⟨[("posts/my-post/img", "a.txt"), ("posts/x/a", "b.txt")],
       [("img", "a.txt"), ("a", "b.txt")], "my-post", none, false⟩
      [("src", "img.jpg")] "img.jpg" "a.txt" (by decide) (by decide)
      (by decide) (by decide)).2.1
    "b.txt" (by decide) (by decide)

/-! ### Claim C6: media-reference resolution order in the rewriter -/

/-- C6.  `find_file_in_map` looks up the full original-path stem
(`posts/<slug>/<filename stem>`) first and falls back to the bare filename
stem only when that lookup misses; in particular, with the mapping
`posts/my-post/img.jpg ↦ mypost_img.jpg`, processing
`<img src="img.jpg">` under post slug `my-post` rewrites the src to the
WP_MEDIA_PATH reference to `mypost_img.jpg`. -/
theorem c6_media_reference_resolution :
    (∀ url slug stemMap basenameMap f,
      alookup stemMap (osJoin (osJoin "posts" slug)
        (osSplitextRoot (osBasename (urlparsePath url)))) = some f → f ≠ "" →
      Wordpress.find_file_in_map url slug stemMap basenameMap = some f) ∧
    (∀ url slug stemMap basenameMap,
      alookup stemMap (osJoin (osJoin "posts" slug)
        (osSplitextRoot (osBasename (urlparsePath url)))) = none →
      Wordpress.find_file_in_map url slug stemMap basenameMap =
        alookup basenameMap (osSplitextRoot (osBasename (urlparsePath url)))) ∧
    Wordpress.process_content (Node.elem "div" [] [Node.elem "img" [("src", "img.jpg")] []])
        (Wordpress.buildLookupMaps [("posts/my-post/img.jpg", "mypost_img.jpg")]).1
        (Wordpress.buildLookupMaps [("posts/my-post/img.jpg", "mypost_img.jpg")]).2
        "my-post" none true true true =
      Node.elem "div" [] [Node.elem "img"
        [("src", Wordpress.WP_MEDIA_PATH ++ "mypost_img.jpg")] []] := by
  refine ⟨?_, ?_, ?_⟩
  · intro url slug stemMap basenameMap f h hne
    unfold Wordpress.find_file_in_map
    dsimp only
    rw [h]
    dsimp only
    rw [if_neg hne]
  · intro url slug stemMap basenameMap h
    unfold Wordpress.find_file_in_map
    dsimp only
    rw [h]
  · rfl

/-- Witness for C6: the full-path-stem lookup resolves `img.jpg` under
slug `my-post`, and with an empty stem map the bare-stem fallback fires. -/
theorem c6_media_reference_resolution_witness :
    Wordpress.find_file_in_map "img.jpg" "my-post"
        (Wordpress.buildLookupMaps [("posts/my-post/img.jpg", "mypost_img.jpg")]).1
        (Wordpress.buildLookupMaps [("posts/my-post/img.jpg", "mypost_img.jpg")]).2
      = some "mypost_img.jpg" ∧
    Wordpress.find_file_in_map "img.jpg" "other-post" [] [("img", "fallback_img.jpg")]
      = alookup [("img", "fallback_img.jpg")] "img" := by
  constructor
  · exact c6_media_reference_resolution.1 "img.jpg" "my-post" _ _ "mypost_img.jpg"
      (by decide) (by decide)
  · exact c6_media_reference_resolution.2.1 "img.jpg" "other-post" [] [("img", "fallback_img.jpg")]
      (by decide)

/-! ### Claim C7: a corrupt file during fingerprinting is skipped -/

/-- C7 counterexample: an image file whose fingerprinting raises is not
copied into the media store and does not appear in file_map — only a
warning is recorded — contradicting the claimed copy-through. -/
theorem c7_counterexample :
    (PrepareMedia.prepRun
        ⟨fun _ => "image/jpeg", fun _ => Except.error "cannot identify image file",
          fun _ => "00000000"⟩
        [⟨"posts/p/bad.jpg", "corrupt"⟩] PrepareMedia.initState).fileMap = [] ∧
    (PrepareMedia.prepRun
        ⟨fun _ => "image/jpeg", fun _ => Except.error "cannot identify image file",
          fun _ => "00000000"⟩
        [⟨"posts/p/bad.jpg", "corrupt"⟩] PrepareMedia.initState).copies = [] ∧
    (PrepareMedia.prepRun
        ⟨fun _ => "image/jpeg", fun _ => Except.error "cannot identify image file",
          fun _ => "00000000"⟩
        [⟨"posts/p/bad.jpg", "corrupt"⟩] PrepareMedia.initState).warnings
      = ["posts/p/bad.jpg"] := by
  decide

/-- C7 (amended).  When fingerprinting a media file raises, the error is
caught per-file and logged as a warning; the file is excluded from
fingerprint comparison and skipped entirely — it is not copied into the
media store and is absent from the output mapping — and processing
continues with the remaining files from an otherwise unchanged state. -/
theorem c7_corrupt_media_skipped (env : PrepareMedia.PrepEnv) (s : PrepareMedia.PrepState)
    (f : PrepareMedia.MediaFile) (rest : List PrepareMedia.MediaFile) (msg : String)
    (himg : strStarts (env.mimeOf f.content) "image/" = true)
    (hph : env.phashOf f.content = Except.error msg) :
    PrepareMedia.prepStep env s f = { s with warnings := s.warnings ++ [f.path] } ∧
    PrepareMedia.prepRun env (f :: rest) s =
      PrepareMedia.prepRun env rest { s with warnings := s.warnings ++ [f.path] } := by
  have hstep : PrepareMedia.prepStep env s f = { s with warnings := s.warnings ++ [f.path] } := by
    unfold PrepareMedia.prepStep
    rw [if_pos himg, hph]
  exact ⟨hstep, by rw [PrepareMedia.prepRun, hstep]⟩

/-- Witness for C7: a concrete corrupt image leaves the state unchanged
except for the warning, and the run continues with the remaining file. -/
theorem c7_corrupt_media_skipped_witness :
    PrepareMedia.prepStep
        ⟨fun _ => "image/jpeg", fun c => if c = "corrupt" then Except.error "bad" else Except.ok [true],
          fun _ => "00000000"⟩
        PrepareMedia.initState ⟨"posts/p/bad.jpg", "corrupt"⟩
      = { PrepareMedia.initState with warnings := PrepareMedia.initState.warnings ++ ["posts/p/bad.jpg"] } ∧
    PrepareMedia.prepRun
        ⟨fun _ => "image/jpeg", fun c => if c = "corrupt" then Except.error "bad" else Except.ok [true],
          fun _ => "00000000"⟩
        [⟨"posts/p/bad.jpg", "corrupt"⟩, ⟨"posts/p/ok.jpg", "fine"⟩] PrepareMedia.initState
      = PrepareMedia.prepRun
          ⟨fun _ => "image/jpeg", fun c => if c = "corrupt" then Except.error "bad" else Except.ok [true],
            fun _ => "00000000"⟩
          [⟨"posts/p/ok.jpg", "fine"⟩]
          { PrepareMedia.initState with warnings := PrepareMedia.initState.warnings ++ ["posts/p/bad.jpg"] } := by
  exact c7_corrupt_media_skipped
    ⟨fun _ => "image/jpeg", fun c => if c = "corrupt" then Except.error "bad" else Except.ok [true],
      fun _ => "00000000"⟩
    PrepareMedia.initState ⟨"posts/p/bad.jpg", "corrupt"⟩ [⟨"posts/p/ok.jpg", "fine"⟩] "bad"
    (by decide) rfl

end TypepadDL

